import Mathlib

/-!
# kiwih/nullables: nullable scalar wrappers

A shallow embedding of `nullables.go`.  The package defines five wrappers
(`NullTime`, `NullString`, `NullInt64`, `NullFloat64`, `NullBool`), each a pair
of a scalar and a `Valid` flag, with a database side (`Scan`, `Value`), a JSON
side (`MarshalJSON`, `UnmarshalJSON`) and form converters.

Conventions of the embedding

* A Go `string` or `[]byte` is a list of bytes (`Bytes`); `ascii "null"` is the
  byte sequence of an ASCII literal.
* An `int64` is an `Int`; where the library wraps around, the wrap is written
  out (`toInt64`, `% 2 ^ 64`).
* A method with a pointer receiver takes the receiver's state and gives an
  `Outcome`: the state it leaves and the `error` it returns (`none` is Go's
  `nil`), or a runtime panic.
* A method with a value receiver returns the pair of Go results.
* `interface{}` values are the closed family `Iface`.
* Library calls the package makes (`strconv.ParseInt`, `strconv.ParseBool`,
  `fmt.Sprintf("%v", n)`, `json.Marshal(nil)`, `time.Parse`, `Time.AddDate`) are
  written out after the Go standard library; the floating point codecs, the
  JSON form of a time and the `%s` print of kinds other than text are taken as
  parameters.
-/

namespace Nullables

/-! ## Bytes, errors, outcomes -/

/-- A Go `byte`. -/
abbrev Byte := Fin 256

/-- A Go `string` or `[]byte`: a finite sequence of bytes. -/
abbrev Bytes := List Byte

/-- The bytes of an ASCII string literal. -/
def ascii (s : String) : Bytes := s.toList.map (fun c => Fin.ofNat c.toNat)

/-- Every byte of the sequence is one of the ASCII digits `'0'..'9'`. -/
def allDigits (ds : Bytes) : Prop := ∀ d ∈ ds, 48 ≤ d.val ∧ d.val ≤ 57

instance allDigits.decidable (ds : Bytes) : Decidable (allDigits ds) :=
  List.decidableBAll (fun d : Byte => 48 ≤ d.val ∧ d.val ≤ 57) ds

/-- The number a sequence of decimal digits denotes, most significant first. -/
def digitsValue (ds : Bytes) : Nat := ds.foldl (fun a c => a * 10 + (c.val - 48)) 0

/-- The two sentinel errors a `*strconv.NumError` wraps. -/
inductive NumErrKind
  | ErrSyntax
  | ErrRange
  deriving DecidableEq, Repr

/-- Go `error` values that reach the caller of this package. -/
inductive Error
  /-- The value of `errors.New(msg)`; its message is `msg`. -/
  | errorString (msg : Bytes)
  /-- A `*strconv.NumError{Func, Num, Err}`. -/
  | NumError (Func : Bytes) (Num : Bytes) (Err : NumErrKind)
  /-- An error of a codec (`*time.ParseError`, ...), reduced to a message. -/
  | codec (msg : Bytes)
  deriving DecidableEq, Repr

/-- Result of a call of a pointer-receiver method: it returns, leaving the
receiver as `recv` and giving back `err` (`none` for `nil`), or it panics. -/
inductive Outcome (α : Type)
  | ret (recv : α) (err : Option Error)
  | panics
  deriving DecidableEq, Repr

/-- Go slice expression `b[lo:hi]` on a byte slice whose capacity equals its
length; `none` is the runtime panic "slice bounds out of range". -/
def sliceBytes (b : Bytes) (lo hi : Int) : Option Bytes :=
  if 0 ≤ lo ∧ lo ≤ hi ∧ hi ≤ (b.length : Int) then
    some ((b.take hi.toNat).drop lo.toNat)
  else
    none

/-- The call `json.Marshal(nil)`: the four bytes `null` and a nil error. -/
def jsonMarshalNil : Bytes × Option Error := (ascii "null", none)

/-! ## The wrappers -/

/-- Go `bool`. -/
abbrev bool := Bool

/-- Go `time.Time`, read as the civil date and time of day it denotes. -/
structure time.Time where
  year : Int
  month : Nat
  day : Nat
  hour : Nat
  minute : Nat
  second : Nat
  nanosecond : Nat
  deriving DecidableEq, Repr

structure NullTime where
  Time : time.Time
  Valid : bool
  deriving DecidableEq, Repr

structure NullString where
  String : Bytes
  Valid : bool
  deriving DecidableEq, Repr

structure NullInt64 where
  Int64 : Int
  Valid : bool
  deriving DecidableEq, Repr

structure NullFloat64 where
  Float64 : Float
  Valid : bool

structure NullBool where
  Bool : bool
  Valid : bool
  deriving DecidableEq, Repr

/-- Go `interface{}` values: `nil`, the kinds a database driver hands over
(`driver.Value`), and some kinds that are none of them. -/
inductive Iface
  | nil
  | int64 (v : Int)
  | float64 (v : Float)
  | bool (v : bool)
  | bytes (v : Bytes)
  | string (v : Bytes)
  | time (v : time.Time)
  | int (v : Int)
  | int32 (v : Int)
  | float32 (v : Float)
  | NullTime (v : NullTime)
  | NullString (v : NullString)
  | NullInt64 (v : NullInt64)
  | NullFloat64 (v : NullFloat64)
  | NullBool (v : NullBool)

/-! ## NullBool -/

/-- `func (nt NullBool) MarshalJSON() ([]byte, error)` -/
def NullBool.MarshalJSON (nt : NullBool) : Bytes × Option Error :=
  if nt.Valid then
    if nt.Bool then (ascii "true", none) else (ascii "false", none)
  else
    jsonMarshalNil

/-- `func (nt *NullBool) UnmarshalJSON(b []byte) error`.  The branch for
`false` assigns both fields and has no `return`, so control reaches the final
`return errors.New(...)`. -/
def NullBool.UnmarshalJSON (nt : NullBool) (b : Bytes) : Outcome NullBool :=
  if b = ascii "null" then
    .ret { nt with Valid := false } none
  else if b = ascii "true" then
    .ret { Bool := true, Valid := true } none
  else
    let nt := if b = ascii "false" then { Bool := false, Valid := true } else nt
    .ret nt (some (.errorString (b ++ ascii " is not a valid JSON bool")))

/-! ## Library calls on integers -/

/-- Go `uint64(1)<<64 - 1`. -/
def maxUint64 : Nat := 2 ^ 64 - 1

/-- Conversion `int64(u)` of a `uint64`: the value with the same 64 bits. -/
def toInt64 (u : Nat) : Int :=
  if u % 2 ^ 64 < 2 ^ 63 then (u % 2 ^ 64 : Nat) else ((u % 2 ^ 64 : Nat) : Int) - 2 ^ 64

/-- Conversion `uint64(v)` of an `int64`: the value with the same 64 bits. -/
def toUint64 (v : Int) : Nat := (v % 2 ^ 64).toNat

/-- Negation `-n` on `int64`, which wraps around at the minimum value. -/
def negInt64 (n : Int) : Int := toInt64 (toUint64 (-n))

/-- `strconv.syntaxError(fn, str)`. -/
def syntaxError (fn str : Bytes) : Error := .NumError fn str .ErrSyntax

/-- `strconv.rangeError(fn, str)`. -/
def rangeError (fn str : Bytes) : Error := .NumError fn str .ErrRange

/-- The digit loop of `strconv.ParseUint(s, 10, 64)` from accumulator `n` over
the remaining bytes; `s0` is the whole argument, quoted in errors.  A byte
outside `'0'..'9'` is a syntax error (a letter is a digit of value at least 10,
which base 10 rejects); `n >= cutoff` with `cutoff = maxUint64/10 + 1` and a
wrapped `n1 < n` are range errors, returned with the value `maxVal`. -/
def parseUintLoop (s0 : Bytes) : Nat → Bytes → Nat × Option Error
  | n, [] => (n, none)
  | n, c :: cs =>
    if 48 ≤ c.val ∧ c.val ≤ 57 then
      let d := c.val - 48
      if n ≥ maxUint64 / 10 + 1 then
        (maxUint64, some (rangeError (ascii "ParseUint") s0))
      else
        let n := (n * 10) % 2 ^ 64
        let n1 := (n + d) % 2 ^ 64
        if n1 < n ∨ n1 > maxUint64 then
          (maxUint64, some (rangeError (ascii "ParseUint") s0))
        else
          parseUintLoop s0 n1 cs
    else
      (0, some (syntaxError (ascii "ParseUint") s0))

/-- `strconv.ParseUint(s, 10, 64)`: both results, value and error. -/
def ParseUint (s : Bytes) : Nat × Option Error :=
  if s = [] then
    (0, some (syntaxError (ascii "ParseUint") s))
  else
    parseUintLoop s 0 s

/-- `strconv.ParseInt(s, 10, 64)`: both results, value and error.  An optional
sign is picked off, the rest goes through `ParseUint`; a syntax error is
returned with value 0, a magnitude out of range with the nearest bound. -/
def ParseInt (s : Bytes) : Int × Option Error :=
  match s with
  | [] => (0, some (syntaxError (ascii "ParseInt") s))
  | c :: rest =>
    let neg : bool := c = 45
    let digits := if c = 43 ∨ c = 45 then rest else s
    match ParseUint digits with
    | (_, some (.NumError _ _ .ErrSyntax)) => (0, some (syntaxError (ascii "ParseInt") s))
    | (un, _) =>
      let cutoff : Nat := 2 ^ 63
      if !neg ∧ un ≥ cutoff then
        ((cutoff : Int) - 1, some (rangeError (ascii "ParseInt") s))
      else if neg ∧ un > cutoff then
        (-(cutoff : Int), some (rangeError (ascii "ParseInt") s))
      else
        let n := toInt64 un
        (if neg then negInt64 n else n, none)

/-- The decimal digit loop of `fmt`'s `fmtInteger`: while `u >= 10` the digit
`'0' + u - (u/10)*10` is written in front of what is already in the buffer and
`u` becomes `u/10`; the last digit `'0' + u` ends the loop.  The first argument
bounds the number of rounds (a `uint64` has at most 20 digits). -/
def fmtDigits : Nat → Nat → Bytes → Bytes
  | 0, u, buf => Fin.ofNat (48 + u) :: buf
  | rounds + 1, u, buf =>
    if u ≥ 10 then
      let next := u / 10
      fmtDigits rounds next (Fin.ofNat (48 + u - next * 10) :: buf)
    else
      Fin.ofNat (48 + u) :: buf

/-- `fmt.Sprintf("%v", n)` for an `int64`: `fmtInteger` in base 10, signed.  A
negative argument is negated as a `uint64` and gets a leading `'-'`. -/
def fmtInt64 (v : Int) : Bytes :=
  let u := toUint64 v
  let negative : bool := v < 0
  let u := if negative then (2 ^ 64 - u) % 2 ^ 64 else u
  let buf := fmtDigits 19 u []
  if negative then 45 :: buf else buf

/-! ## NullInt64 -/

/-- `func (nt *NullInt64) Scan(value interface{}) error`.  The assertion
`value.(int64)` panics on any other dynamic type, before anything is assigned. -/
def NullInt64.Scan (nt : NullInt64) (value : Iface) : Outcome NullInt64 :=
  match value with
  | .nil => .ret { nt with Valid := false } none
  | .int64 v => .ret { Int64 := v, Valid := true } none
  | _ => .panics

/-- `func (nt NullInt64) Value() (driver.Value, error)` -/
def NullInt64.Value (nt : NullInt64) : Iface × Option Error :=
  if !nt.Valid then (.nil, none) else (.int64 nt.Int64, none)

/-- `func (nt NullInt64) MarshalJSON() ([]byte, error)` -/
def NullInt64.MarshalJSON (nt : NullInt64) : Bytes × Option Error :=
  if nt.Valid then (fmtInt64 nt.Int64, none) else jsonMarshalNil

/-- `func (nt *NullInt64) UnmarshalJSON(b []byte) error`.  The value result of
`ParseInt` is assigned to the field before the error is looked at. -/
def NullInt64.UnmarshalJSON (nt : NullInt64) (b : Bytes) : Outcome NullInt64 :=
  if b = ascii "null" then
    .ret { nt with Valid := false } none
  else
    let (v, err) := ParseInt b
    let nt := { nt with Int64 := v }
    match err with
    | some e => .ret nt (some e)
    | none => .ret { nt with Valid := true } none

/-! ## NullString -/

/-- `func (nt NullString) Value() (driver.Value, error)` -/
def NullString.Value (nt : NullString) : Iface × Option Error :=
  if !nt.Valid then (.nil, none) else (.string nt.String, none)

/-- `func (nt NullString) MarshalJSON() ([]byte, error)`: for a valid wrapper
`fmt.Sprintf("\"%v\"", nt.String)`, the text between two quote bytes. -/
def NullString.MarshalJSON (nt : NullString) : Bytes × Option Error :=
  if nt.Valid then (ascii "\"" ++ nt.String ++ ascii "\"", none) else jsonMarshalNil

/-- `func (nt *NullString) UnmarshalJSON(b []byte) error`.  The slice
expression `b[1 : len(b)-1]` panics when `len(b) < 2`. -/
def NullString.UnmarshalJSON (nt : NullString) (b : Bytes) : Outcome NullString :=
  if b = ascii "null" then
    .ret { nt with Valid := false } none
  else
    match sliceBytes b 1 ((b.length : Int) - 1) with
    | none => .panics
    | some s => .ret { String := s, Valid := true } none

/-! ## NullFloat64 -/

/-- `func (nt *NullFloat64) Scan(value interface{}) error` -/
def NullFloat64.Scan (nt : NullFloat64) (value : Iface) : Outcome NullFloat64 :=
  match value with
  | .nil => .ret { nt with Valid := false } none
  | .float64 v => .ret { Float64 := v, Valid := true } none
  | _ => .panics

/-- `func (nt NullFloat64) Value() (driver.Value, error)` -/
def NullFloat64.Value (nt : NullFloat64) : Iface × Option Error :=
  if !nt.Valid then (.nil, none) else (.float64 nt.Float64, none)

/-- `func (nt NullFloat64) MarshalJSON() ([]byte, error)`; `fmtFloat` stands for
`fmt.Sprintf("%v", f)` on a `float64`. -/
def NullFloat64.MarshalJSON (fmtFloat : Float → Bytes) (nt : NullFloat64) :
    Bytes × Option Error :=
  if nt.Valid then (fmtFloat nt.Float64, none) else jsonMarshalNil

/-- `func (nt *NullFloat64) UnmarshalJSON(b []byte) error`; `parseFloat` stands
for `strconv.ParseFloat(s, 64)` with both its results. -/
def NullFloat64.UnmarshalJSON (parseFloat : Bytes → Float × Option Error)
    (nt : NullFloat64) (b : Bytes) : Outcome NullFloat64 :=
  if b = ascii "null" then
    .ret { nt with Valid := false } none
  else
    let (v, err) := parseFloat b
    let nt := { nt with Float64 := v }
    match err with
    | some e => .ret nt (some e)
    | none => .ret { nt with Valid := true } none

/-! ## NullTime -/

/-- `func (nt NullTime) Value() (driver.Value, error)` -/
def NullTime.Value (nt : NullTime) : Iface × Option Error :=
  if !nt.Valid then (.nil, none) else (.time nt.Time, none)

/-- `func (nt NullTime) MarshalJSON() ([]byte, error)`; `marshalTime` stands for
the method `time.Time.MarshalJSON` with both its results. -/
def NullTime.MarshalJSON (marshalTime : time.Time → Bytes × Option Error)
    (nt : NullTime) : Bytes × Option Error :=
  if nt.Valid then marshalTime nt.Time else jsonMarshalNil

/-! ## NullBool, database side -/

/-- `func (nt *NullBool) Scan(value interface{}) error` -/
def NullBool.Scan (nt : NullBool) (value : Iface) : Outcome NullBool :=
  match value with
  | .nil => .ret { nt with Valid := false } none
  | .bool v => .ret { Bool := v, Valid := true } none
  | _ => .panics

/-- `func (nt NullBool) Value() (driver.Value, error)` -/
def NullBool.Value (nt : NullBool) : Iface × Option Error :=
  if !nt.Valid then (.nil, none) else (.bool nt.Bool, none)

/-! ## Scan of NullTime and NullString -/

/-- `func (nt *NullTime) Scan(value interface{}) error`.  The type switch has a
case for `time.Time`, a case for `NullTime` and a `default` that returns `nil`
without touching the receiver. -/
def NullTime.Scan (nt : NullTime) (value : Iface) : Outcome NullTime :=
  match value with
  | .nil => .ret { nt with Valid := false } none
  | .time iface => .ret { Time := iface, Valid := true } none
  | .NullTime iface => .ret { Time := iface.Time, Valid := iface.Valid } none
  | _ => .ret nt none

/-- `fmt.Sprintf("%s", value)`: a string and a byte slice print as their
contents; `fmtOther` stands for what the verb prints for any other kind. -/
def sprintfS (fmtOther : Iface → Bytes) : Iface → Bytes
  | .string s => s
  | .bytes b => b
  | v => fmtOther v

/-- `func (nt *NullString) Scan(value interface{}) error` -/
def NullString.Scan (fmtOther : Iface → Bytes) (nt : NullString) (value : Iface) :
    Outcome NullString :=
  match value with
  | .nil => .ret { nt with Valid := false } none
  | v => .ret { String := sprintfS fmtOther v, Valid := true } none

/-! ## Form converters

Each converter returns `reflect.ValueOf(x)`; the embedding returns `x`. -/

/-- `strconv.ParseBool(str)`: both results, value and error. -/
def ParseBool (str : Bytes) : bool × Option Error :=
  if str ∈ [ascii "1", ascii "t", ascii "T", ascii "true", ascii "TRUE", ascii "True"] then
    (true, none)
  else if str ∈ [ascii "0", ascii "f", ascii "F", ascii "false", ascii "FALSE", ascii "False"] then
    (false, none)
  else
    (false, some (syntaxError (ascii "ParseBool") str))

/-- `func ConvertBool(value string) reflect.Value`, holding a plain `bool`. -/
def ConvertBool (value : Bytes) : bool :=
  if value = ascii "on" then
    true
  else
    match ParseBool value with
    | (v, none) => v
    | (_, some _) => false

/-- `func NullStringConverter(s string) reflect.Value` -/
def NullStringConverter (s : Bytes) : NullString :=
  let decodedString : NullString := { String := [], Valid := false }
  if s = ascii "" then
    { decodedString with Valid := false }
  else
    { String := s, Valid := true }

/-- `func NullInt64Converter(i string) reflect.Value`.  The value result of
`ParseInt` is stored in the field whether or not there is an error. -/
def NullInt64Converter (i : Bytes) : NullInt64 :=
  let decodedInt64 : NullInt64 := { Int64 := 0, Valid := false }
  if i = ascii "" then
    { decodedInt64 with Valid := false }
  else
    let (v, err) := ParseInt i
    let decodedInt64 := { decodedInt64 with Int64 := v }
    match err with
    | some _ => { decodedInt64 with Valid := false }
    | none => { decodedInt64 with Valid := true }

/-- `func NullFloat64Converter(i string) reflect.Value`; `parseFloat` stands for
`strconv.ParseFloat(s, 64)` with both its results. -/
def NullFloat64Converter (parseFloat : Bytes → Float × Option Error) (i : Bytes) :
    NullFloat64 :=
  let decodedFloat64 : NullFloat64 := { Float64 := 0, Valid := false }
  if i = ascii "" then
    { decodedFloat64 with Valid := false }
  else
    let (v, err) := parseFloat i
    let decodedFloat64 := { decodedFloat64 with Float64 := v }
    match err with
    | some _ => { decodedFloat64 with Valid := false }
    | none => { decodedFloat64 with Valid := true }

/-- `func NullBoolConverter(i string) reflect.Value`.  It calls
`strconv.ParseBool` directly and not `ConvertBool`. -/
def NullBoolConverter (i : Bytes) : NullBool :=
  let decodedBool : NullBool := { Bool := false, Valid := false }
  if i = ascii "" then
    { decodedBool with Valid := false }
  else
    let (v, err) := ParseBool i
    let decodedBool := { decodedBool with Bool := v }
    match err with
    | some _ => { decodedBool with Valid := false }
    | none => { decodedBool with Valid := true }

/-! ## Library calls on time

`time.Parse` and `Time.AddDate` are written out after package `time` for what
the layouts of this package need.  Placeholders that begin with `J`, `M`, `_`,
`p`, `-`, `Z`, `.` or `,` (names, zones, fractions of a second) are not
recognised, and the placeholders `05`, `5`, `06` and `002` are recognised but
not parsed; no layout below contains any of them (a `-` in them is never
followed by `07`).  All times are in UTC. -/

/-- The placeholder codes `nextStdChunk` returns; `stdNone` is the code 0 for
"no placeholder left" and `stdOther` stands for the recognised placeholders
whose parsing is not modelled. -/
inductive time.Std
  | stdNone
  | stdLongYear
  | stdNumMonth
  | stdZeroMonth
  | stdDay
  | stdZeroDay
  | stdHour
  | stdHour12
  | stdZeroHour12
  | stdMinute
  | stdZeroMinute
  | stdPM
  | stdOther
  deriving DecidableEq, Repr

/-- The `switch` of `nextStdChunk` at one position of the layout: the
placeholder that starts with byte `c`, followed by `rest`, and the layout left
after it; `none` when no placeholder starts here. -/
def time.stdAt (c : Byte) (rest : Bytes) : Option (time.Std × Bytes) :=
  if c = 48 then
    match rest with
    | d :: r =>
      if d = 49 then some (.stdZeroMonth, r)
      else if d = 50 then some (.stdZeroDay, r)
      else if d = 51 then some (.stdZeroHour12, r)
      else if d = 52 then some (.stdZeroMinute, r)
      else if d = 53 then some (.stdOther, r)
      else if d = 54 then some (.stdOther, r)
      else
        match r with
        | e :: r2 => if d = 48 ∧ e = 50 then some (.stdOther, r2) else none
        | [] => none
    | [] => none
  else if c = 49 then
    match rest with
    | d :: r => if d = 53 then some (.stdHour, r) else some (.stdNumMonth, rest)
    | [] => some (.stdNumMonth, rest)
  else if c = 50 then
    match rest with
    | d :: e :: f :: r =>
      if d = 48 ∧ e = 48 ∧ f = 54 then some (.stdLongYear, r) else some (.stdDay, rest)
    | _ => some (.stdDay, rest)
  else if c = 51 then some (.stdHour12, rest)
  else if c = 52 then some (.stdMinute, rest)
  else if c = 53 then some (.stdOther, rest)
  else if c = 80 then
    match rest with
    | d :: r => if d = 77 then some (.stdPM, r) else none
    | [] => none
  else
    none

/-- `nextStdChunk(layout)`: the text before the first placeholder, the
placeholder, and the layout after it; without a placeholder the whole layout
is the prefix and the code is `stdNone`. -/
def time.nextStdChunk : Bytes → Bytes × time.Std × Bytes
  | [] => ([], .stdNone, [])
  | c :: rest =>
    match time.stdAt c rest with
    | some (std, suffix) => ([], std, suffix)
    | none =>
      let (pre, std, suffix) := time.nextStdChunk rest
      (c :: pre, std, suffix)

/-- `cutspace(s)`: `s` without its leading spaces. -/
def time.cutspace : Bytes → Bytes
  | [] => []
  | c :: r => if c = 32 then time.cutspace r else c :: r

/-- `skip(value, prefix)`: remove `prefix` from the front of `value`, a run of
spaces in `prefix` matching any run of spaces, also an empty one at the end of
`value`; `none` is `errBad`.  The first argument bounds the number of rounds
of the loop, each of which shortens `prefix`. -/
def time.skip : Nat → Bytes → Bytes → Option Bytes
  | _, value, [] => some value
  | 0, _, _ :: _ => none
  | rounds + 1, value, p :: pre =>
    if p = 32 then
      match value with
      | v :: _ =>
        if v ≠ 32 then none
        else time.skip rounds (time.cutspace value) (time.cutspace (p :: pre))
      | [] => time.skip rounds (time.cutspace value) (time.cutspace (p :: pre))
    else
      match value with
      | v :: vs => if v ≠ p then none else time.skip rounds vs pre
      | [] => none

/-- `isDigit(s, i)`. -/
def time.isDigit (s : Bytes) (i : Nat) : bool :=
  match s.get? i with
  | some c => 48 ≤ c.val ∧ c.val ≤ 57
  | none => false

/-- `getnum(s, fixed)`: one or two leading digits as a number and the rest of
`s`; with `fixed` exactly two digits are required; `none` is `errBad`. -/
def time.getnum (s : Bytes) (fixed : bool) : Option (Int × Bytes) :=
  match s with
  | [] => none
  | c :: r =>
    if !time.isDigit s 0 then none
    else if !time.isDigit s 1 then
      if fixed then none else some ((c.val : Int) - 48, r)
    else
      match r with
      | d :: r2 => some (((c.val : Int) - 48) * 10 + ((d.val : Int) - 48), r2)
      | [] => none

/-- The variables of `parse` that the modelled placeholders assign. -/
structure time.parseState where
  year : Int
  month : Int
  day : Int
  hour : Int
  min : Int
  amSet : bool
  pmSet : bool
  deriving DecidableEq, Repr

/-- A `*time.ParseError`, reduced to its message. -/
def time.parseError (message : String) : Error := .codec (ascii message)

/-- One round of the `switch std & stdMask` of `parse`: the state and the rest
of the value after the placeholder `std` has been read from `value`. -/
def time.parseStd (std : time.Std) (value : Bytes) (st : time.parseState) :
    Except Error (time.parseState × Bytes) :=
  match std with
  | .stdLongYear =>
    if value.length < 4 ∨ !time.isDigit value 0 then .error (time.parseError "")
    else if allDigits (value.take 4) then
      .ok ({ st with year := (digitsValue (value.take 4) : Int) }, value.drop 4)
    else .error (time.parseError "")
  | .stdNumMonth | .stdZeroMonth =>
    match time.getnum value (std = .stdZeroMonth) with
    | none => .error (time.parseError "")
    | some (month, value) =>
      if month ≤ 0 ∨ 12 < month then .error (time.parseError ": month out of range")
      else .ok ({ st with month := month }, value)
  | .stdDay | .stdZeroDay =>
    match time.getnum value (std = .stdZeroDay) with
    | none => .error (time.parseError "")
    | some (day, value) => .ok ({ st with day := day }, value)
  | .stdHour =>
    match time.getnum value false with
    | none => .error (time.parseError "")
    | some (hour, value) =>
      if hour < 0 ∨ 24 ≤ hour then .error (time.parseError ": hour out of range")
      else .ok ({ st with hour := hour }, value)
  | .stdHour12 | .stdZeroHour12 =>
    match time.getnum value (std = .stdZeroHour12) with
    | none => .error (time.parseError "")
    | some (hour, value) =>
      if hour < 0 ∨ 12 < hour then .error (time.parseError ": hour out of range")
      else .ok ({ st with hour := hour }, value)
  | .stdMinute | .stdZeroMinute =>
    match time.getnum value (std = .stdZeroMinute) with
    | none => .error (time.parseError "")
    | some (min, value) =>
      if min < 0 ∨ 60 ≤ min then .error (time.parseError ": minute out of range")
      else .ok ({ st with min := min }, value)
  | .stdPM =>
    if value.length < 2 then .error (time.parseError "")
    else if value.take 2 = ascii "PM" then .ok ({ st with pmSet := true }, value.drop 2)
    else if value.take 2 = ascii "AM" then .ok ({ st with amSet := true }, value.drop 2)
    else .error (time.parseError "")
  | .stdOther => .error (time.parseError ": placeholder outside the model")
  | .stdNone => .ok (st, value)

/-- The loop of `parse`, "each iteration processes one std value": skip the
text before the next placeholder, stop when there is none (any value left over
is "extra text"), else read the placeholder.  The first argument bounds the
number of rounds, each of which shortens the layout. -/
def time.parseLoop : Nat → Bytes → Bytes → time.parseState → Except Error time.parseState
  | 0, _, _, _ => .error (time.parseError ": out of rounds")
  | rounds + 1, layout, value, st =>
    match time.nextStdChunk layout with
    | (pre, std, suffix) =>
      match time.skip pre.length value pre with
      | none => .error (time.parseError "")
      | some value =>
        if std = .stdNone then
          if value.length ≠ 0 then .error (time.parseError ": extra text") else .ok st
        else
          match time.parseStd std value st with
          | .error e => .error e
          | .ok (st, value) => time.parseLoop rounds suffix value st

/-- `isLeap(year)`. -/
def time.isLeap (year : Int) : bool := year % 4 = 0 ∧ (year % 100 ≠ 0 ∨ year % 400 = 0)

/-- The table `daysBefore`: the days of a non-leap year before month `m + 1`. -/
def time.daysBefore (m : Int) : Int :=
  [0, 31, 59, 90, 120, 151, 181, 212, 243, 273, 304, 334, 365].getD m.toNat 0

/-- `daysIn(m, year)` for a month `m` in 1..12. -/
def time.daysIn (m : Int) (year : Int) : Int :=
  if m = 2 ∧ time.isLeap year then 29 else time.daysBefore m - time.daysBefore (m - 1)

/-- Days from 1 January of year 1 to 1 January of `year` in the proleptic
Gregorian calendar (`daysSinceEpoch`, counted from year 1). -/
def time.daysSinceYear1 (year : Int) : Int :=
  let y := year - 1
  365 * y + y / 4 - y / 100 + y / 400

/-- The year, month and day of the day `d` days after 1 January of year 1
(`absDate`): 400-, 100- and 4-year cycles are cut off, then years, then the
month is found in `daysBefore`. -/
def time.dateOfDays (d : Int) : Int × Int × Int :=
  let n := d / 146097
  let y := 400 * n
  let d := d - 146097 * n
  let n := d / 36524
  let n := n - n / 4
  let y := y + 100 * n
  let d := d - 36524 * n
  let n := d / 1461
  let y := y + 4 * n
  let d := d - 1461 * n
  let n := d / 365
  let n := n - n / 4
  let y := y + n
  let d := d - 365 * n
  let year := y + 1
  if time.isLeap year ∧ d = 31 + 29 - 1 then
    (year, 2, 29)
  else
    let day := if time.isLeap year ∧ d > 31 + 29 - 1 then d - 1 else d
    let month := day / 31
    let e := time.daysBefore (month + 1)
    if day ≥ e then (year, month + 2, day - e + 1)
    else (year, month + 1, day - time.daysBefore month + 1)

/-- The date part of `time.Date`: the month is normalised into 1..12,
overflowing into the year, the days since the epoch are counted (days before
the year, before the month, before the day) and turned back into a date. -/
def time.normDate (year month day : Int) : Int × Int × Int :=
  let m := month - 1
  let year := year + m / 12
  let month := m % 12 + 1
  let d := time.daysSinceYear1 year + time.daysBefore (month - 1)
    + (if time.isLeap year ∧ month ≥ 3 then 1 else 0) + (day - 1)
  time.dateOfDays d

/-- `time.Date(year, month, day, hour, min, sec, nsec, time.UTC)`: values out of
range are normalised, each overflowing into the next larger unit. -/
def time.Date (year month day hour min sec nsec : Int) : time.Time :=
  let sec := sec + nsec / 1000000000
  let nsec := nsec % 1000000000
  let min := min + sec / 60
  let sec := sec % 60
  let hour := hour + min / 60
  let min := min % 60
  let day := day + hour / 24
  let hour := hour % 24
  let ymd := time.normDate year month day
  { year := ymd.1, month := ymd.2.1.toNat, day := ymd.2.2.toNat, hour := hour.toNat,
    minute := min.toNat, second := sec.toNat, nanosecond := nsec.toNat }

/-- The zero value `time.Time{}`: 1 January of year 1, 00:00:00 UTC. -/
def time.zeroTime : time.Time :=
  { year := 1, month := 1, day := 1, hour := 0, minute := 0, second := 0, nanosecond := 0 }

/-- `time.Parse(layout, value)`: both results, the time and the error; on an
error the time is the zero value. -/
def time.Parse (layout value : Bytes) : time.Time × Option Error :=
  match time.parseLoop (layout.length + 1) layout value
      { year := 0, month := -1, day := -1, hour := 0, min := 0, amSet := false,
        pmSet := false } with
  | .error e => (time.zeroTime, some e)
  | .ok st =>
    let hour :=
      if st.pmSet ∧ st.hour < 12 then st.hour + 12
      else if st.amSet ∧ st.hour = 12 then 0
      else st.hour
    let month := if st.month < 0 then 1 else st.month
    let day := if st.day < 0 then 1 else st.day
    if day < 1 ∨ day > time.daysIn month st.year then
      (time.zeroTime, some (time.parseError ": day out of range"))
    else
      (time.Date st.year month day hour st.min 0 0, none)

/-- `func (t Time) AddDate(years int, months int, days int) Time` -/
def time.Time.AddDate (t : time.Time) (years months days : Int) : time.Time :=
  time.Date (t.year + years) ((t.month : Int) + months) ((t.day : Int) + days)
    t.hour t.minute t.second t.nanosecond

/-! ## Form converter of NullTime -/

/-- `HTMLFormTime = "15:04"` -/
def HTMLFormTime : Bytes := ascii "15:04"

/-- `HTMLFormDate = "2006-01-02"` -/
def HTMLFormDate : Bytes := ascii "2006-01-02"

/-- `HTMLFormDateTime = "2006-01-02 3:04 PM"` -/
def HTMLFormDateTime : Bytes := ascii "2006-01-02 3:04 PM"

/-- `NZHTMLFormDate = "02-01-2006"` -/
def NZHTMLFormDate : Bytes := ascii "02-01-2006"

/-- `NZHTMLFormDateTime = "02-01-2006 3:04 PM"` -/
def NZHTMLFormDateTime : Bytes := ascii "02-01-2006 3:04 PM"

/-- `HTMLFormDateTime24Hr = "2006-01-02 15:04"` -/
def HTMLFormDateTime24Hr : Bytes := ascii "2006-01-02 15:04"

/-- `func NullTimeConverter(b string) reflect.Value`: the six layouts are tried
one after the other, and the first that parses decides; only after the first
one the result is `v.AddDate(1, 0, 0)`. -/
def NullTimeConverter (b : Bytes) : NullTime :=
  let decodedTime : NullTime := { Time := time.zeroTime, Valid := false }
  match time.Parse HTMLFormTime b with
  | (v, none) => { Time := v.AddDate 1 0 0, Valid := true }
  | (_, some _) =>
  match time.Parse NZHTMLFormDate b with
  | (v, none) => { Time := v, Valid := true }
  | (_, some _) =>
  match time.Parse HTMLFormDate b with
  | (v, none) => { Time := v, Valid := true }
  | (_, some _) =>
  match time.Parse HTMLFormDateTime b with
  | (v, none) => { Time := v, Valid := true }
  | (_, some _) =>
  match time.Parse NZHTMLFormDateTime b with
  | (v, none) => { Time := v, Valid := true }
  | (_, some _) =>
  match time.Parse HTMLFormDateTime24Hr b with
  | (v, none) => { Time := v, Valid := true }
  | (_, some _) => decodedTime

/-! ## Reference notions used in statements -/

/-- The decimal numeral of an integer as text: the digits of its absolute value
in base 10, most significant first and without leading zeros, after a `-` when
the integer is negative. -/
def decimalText (n : Int) : Bytes :=
  if n < 0 then ascii "-" ++ ascii (Nat.repr n.natAbs) else ascii (Nat.repr n.natAbs)

/-- A base-10 integer literal and the integer it denotes: an optional sign `+`
or `-` followed by one or more digits `'0'..'9'` and nothing else; `none` for
every other byte sequence. -/
def decimalLiteral (s : Bytes) : Option Int :=
  match s with
  | [] => none
  | c :: rest =>
    let ds := if c = 43 ∨ c = 45 then rest else c :: rest
    if ds ≠ [] ∧ allDigits ds then
      some (if c = 45 then -(digitsValue ds : Int) else (digitsValue ds : Int))
    else
      none

/-- A byte sequence that is a base-10 integer literal whose value `v` fits a
64-bit signed integer. -/
def isInt64Literal (s : Bytes) (v : Int) : Prop :=
  decimalLiteral s = some v ∧ -2 ^ 63 ≤ v ∧ v ≤ 2 ^ 63 - 1

instance isInt64Literal.decidable (s : Bytes) (v : Int) : Decidable (isInt64Literal s v) :=
  inferInstanceAs (Decidable (decimalLiteral s = some v ∧ -2 ^ 63 ≤ v ∧ v ≤ 2 ^ 63 - 1))

/-- The layouts in the order in which `NullTimeConverter` is to try them. -/
def formLayouts : List Bytes :=
  [HTMLFormTime, NZHTMLFormDate, HTMLFormDate, HTMLFormDateTime, NZHTMLFormDateTime,
    HTMLFormDateTime24Hr]

/-- The first of `formLayouts`, in that order, under which `b` parses. -/
def firstParsingLayout (b : Bytes) : Option Bytes :=
  formLayouts.find? (fun l => (time.Parse l b).2.isNone)

/-! # Theorems -/

/-! ## Formatting and parsing of integers -/

theorem digitChar_byte (d : Nat) (h : d < 10) :
    (Fin.ofNat (Nat.digitChar d).toNat : Byte) = Fin.ofNat (48 + d) := by
  interval_cases d <;> rfl

theorem fmtDigits_eq_toDigitsCore (fuel : Nat) :
    ∀ (rounds u : Nat) (ds : List Char), u < fuel → u < 10 ^ (rounds + 1) →
      fmtDigits rounds u (ds.map (fun c => Fin.ofNat c.toNat))
        = (Nat.toDigitsCore 10 fuel u ds).map (fun c => Fin.ofNat c.toNat) := by
  induction fuel with
  | zero => intro rounds u ds h; omega
  | succ fuel ih =>
    intro rounds u ds hf hr
    by_cases hu : u ≥ 10
    · cases rounds with
      | zero => simp at hr; omega
      | succ r =>
        have h1 : u / 10 ≠ 0 := by omega
        have h2 : 48 + u - u / 10 * 10 = 48 + u % 10 := by omega
        have h3 := ih r (u / 10) (Nat.digitChar (u % 10) :: ds) (by omega)
          (by rw [pow_succ] at hr; omega)
        simp only [fmtDigits, Nat.toDigitsCore, hu, h1, if_true, if_false, h2]
        rw [← h3]
        simp [digitChar_byte (u % 10) (by omega)]
    · have h1 : u / 10 = 0 := by omega
      have h2 : u % 10 = u := by omega
      have h3 := digitChar_byte u (by omega)
      cases rounds <;> simp [fmtDigits, Nat.toDigitsCore, hu, h1, h2, h3]

theorem fmtDigits_eq_repr (u : Nat) (h : u < 2 ^ 64) :
    fmtDigits 19 u [] = ascii (Nat.repr u) := by
  have := fmtDigits_eq_toDigitsCore (u + 1) 19 u [] (by omega) (by norm_num at h ⊢; omega)
  simpa [ascii, Nat.repr, Nat.toDigits] using this

theorem byte_digit_val (d : Nat) (h : d < 10) : ((Fin.ofNat (48 + d) : Byte)).val = 48 + d := by
  simp [Fin.ofNat]; omega

theorem parseUintLoop_digit (s0 : Bytes) (n d : Nat) (cs : Bytes) (hd : d < 10)
    (h : n * 10 + d < 2 ^ 64) :
    parseUintLoop s0 n ((Fin.ofNat (48 + d) : Byte) :: cs) = parseUintLoop s0 (n * 10 + d) cs := by
  have hv := byte_digit_val d hd
  have h1 : ¬ n ≥ maxUint64 / 10 + 1 := by simp [maxUint64]; omega
  have h2 : n * 10 % 2 ^ 64 = n * 10 := Nat.mod_eq_of_lt (by omega)
  have h3 : (n * 10 + d) % 2 ^ 64 = n * 10 + d := Nat.mod_eq_of_lt h
  have h4 : ¬ (n * 10 + d < n * 10 ∨ n * 10 + d > maxUint64) := by simp [maxUint64]; omega
  have h5 : 48 ≤ 48 + d ∧ 48 + d ≤ 57 := by omega
  simp only [parseUintLoop, hv, h5, h1, h2, Nat.add_sub_cancel_left, h3, h4, and_self, if_true, if_false]

theorem parseUintLoop_fmtDigits (s0 : Bytes) (rounds : Nat) :
    ∀ (u : Nat) (buf : Bytes), u < 10 ^ (rounds + 1) → u < 2 ^ 64 →
      parseUintLoop s0 0 (fmtDigits rounds u buf) = parseUintLoop s0 u buf := by
  induction rounds with
  | zero =>
    intro u buf hr h
    have := parseUintLoop_digit s0 0 u buf (by simpa using hr) (by omega)
    simpa [fmtDigits] using this
  | succ r ih =>
    intro u buf hr h
    by_cases hu : u ≥ 10
    · have h2 : 48 + u - u / 10 * 10 = 48 + u % 10 := by omega
      simp only [fmtDigits, hu, if_true, h2]
      rw [ih (u / 10) _ (by rw [pow_succ] at hr; omega) (by omega),
        parseUintLoop_digit s0 (u / 10) (u % 10) buf (by omega) (by omega)]
      congr 1; omega
    · have := parseUintLoop_digit s0 0 u buf (by omega) (by omega)
      simpa [fmtDigits, hu] using this

theorem fmtDigits_head (rounds : Nat) :
    ∀ (u : Nat) (buf : Bytes), u < 10 ^ (rounds + 1) →
      ∃ c rest, fmtDigits rounds u buf = c :: rest ∧ 48 ≤ c.val ∧ c.val ≤ 57 := by
  induction rounds with
  | zero =>
    intro u buf hr
    have hu : u < 10 := by simpa using hr
    exact ⟨_, buf, rfl, by rw [byte_digit_val u hu]; omega⟩
  | succ r ih =>
    intro u buf hr
    by_cases hu : u ≥ 10
    · simp only [fmtDigits, hu, if_true]
      exact ih _ _ (by rw [pow_succ] at hr; omega)
    · simp only [fmtDigits, hu, if_false]
      exact ⟨_, buf, rfl, by rw [byte_digit_val u (by omega)]; omega⟩

theorem ParseUint_fmtDigits (u : Nat) (h : u < 2 ^ 64) :
    ParseUint (fmtDigits 19 u []) = (u, none) := by
  have h10 : u < 10 ^ (19 + 1) := by norm_num at h ⊢; omega
  obtain ⟨c, rest, hc, -⟩ := fmtDigits_head 19 u [] h10
  have hne : fmtDigits 19 u [] ≠ [] := by rw [hc]; simp
  unfold ParseUint
  rw [if_neg hne, parseUintLoop_fmtDigits _ 19 u [] h10 h]
  rfl

theorem fmtInt64_neg (n : Int) (hmin : -2 ^ 63 ≤ n) (hn : n < 0) :
    fmtInt64 n = 45 :: fmtDigits 19 (-n).toNat [] := by
  have hu : (2 ^ 64 - toUint64 n) % 2 ^ 64 = (-n).toNat := by
    unfold toUint64; omega
  unfold fmtInt64
  simp only [hn, decide_True, if_true, hu]

theorem fmtInt64_nonneg (n : Int) (hmax : n ≤ 2 ^ 63 - 1) (hn : ¬ n < 0) :
    fmtInt64 n = fmtDigits 19 n.toNat [] := by
  have hu : toUint64 n = n.toNat := by unfold toUint64; omega
  unfold fmtInt64
  simp only [hn, decide_False, hu]
  rfl

theorem ParseInt_fmtInt64 (n : Int) (hmin : -2 ^ 63 ≤ n) (hmax : n ≤ 2 ^ 63 - 1) :
    ParseInt (fmtInt64 n) = (n, none) := by
  by_cases hn : n < 0
  · have hb : (-n).toNat < 2 ^ 64 := by omega
    have hP := ParseUint_fmtDigits (-n).toNat hb
    have h1 : ¬ (-n).toNat > 2 ^ 63 := by omega
    have h2 : negInt64 (toInt64 (-n).toNat) = n := by
      unfold negInt64 toInt64 toUint64
      split <;> split <;> omega
    rw [fmtInt64_neg n hmin hn]
    simp only [ParseInt, true_or, or_true, if_true, hP, decide_True, Bool.not_true,
      Bool.false_eq_true, false_and, if_false, true_and, h1, h2]
  · have hb : n.toNat < 2 ^ 64 := by omega
    obtain ⟨c, rest, hc, hc1, hc2⟩ := fmtDigits_head 19 n.toNat [] (by norm_num at hb ⊢; omega)
    have hP := ParseUint_fmtDigits n.toNat hb
    have h43 : c ≠ 43 := by intro h; subst h; revert hc1; decide
    have h45 : c ≠ 45 := by intro h; subst h; revert hc1; decide
    have h1 : ¬ n.toNat ≥ 2 ^ 63 := by omega
    have h2 : toInt64 n.toNat = n := by
      unfold toInt64
      split <;> omega
    rw [fmtInt64_nonneg n hmax hn]
    rw [hc] at hP ⊢
    simp only [ParseInt, h43, h45, or_self, if_false, hP, decide_False, Bool.not_false,
      true_and, h1, Bool.false_eq_true, false_and, h2]

/-! ## Claims on NullBool -/

/-- C1 (the code at the failing input): `UnmarshalJSON` on the literal `false`
sets the receiver to valid=true, value=false and still returns the error
"false is not a valid JSON bool", whereas on `true` it returns no error. -/
theorem C1_unmarshal_false_returns_error (r : NullBool) :
    NullBool.UnmarshalJSON r (ascii "false")
        = .ret ⟨false, true⟩ (some (.errorString (ascii "false is not a valid JSON bool")))
      ∧ NullBool.UnmarshalJSON r (ascii "true") = .ret ⟨true, true⟩ none := by
  constructor <;> rfl

/-- C2 (the code at the failing input): unmarshalling the bytes marshalled from
`NullBool{Bool: false, Valid: true}` leaves the receiver equal to that wrapper
but returns a non-nil error; for `Bool: true` the round trip returns no error. -/
theorem C2_bool_roundtrip_false_errors (r : NullBool) :
    (NullBool.MarshalJSON ⟨false, true⟩).1 = ascii "false"
      ∧ NullBool.UnmarshalJSON r (NullBool.MarshalJSON ⟨false, true⟩).1
          = .ret ⟨false, true⟩ (some (.errorString (ascii "false is not a valid JSON bool")))
      ∧ NullBool.UnmarshalJSON r (NullBool.MarshalJSON ⟨true, true⟩).1
          = .ret ⟨true, true⟩ none := by
  refine ⟨rfl, rfl, rfl⟩

/-- C8: for every byte sequence `b` that is none of `true`, `false`, `null`,
`UnmarshalJSON` returns the error whose message is `b` followed by
" is not a valid JSON bool" and leaves both fields of the receiver as they
were. -/
theorem C8_unmarshal_bool_invalid (r : NullBool) (b : Bytes)
    (hnull : b ≠ ascii "null") (htrue : b ≠ ascii "true") (hfalse : b ≠ ascii "false") :
    NullBool.UnmarshalJSON r b
      = .ret r (some (.errorString (b ++ ascii " is not a valid JSON bool"))) := by
  simp [NullBool.UnmarshalJSON, hnull, htrue, hfalse]

/-- C8 at the input `yes` with the receiver `{true, true}`. -/
theorem C8_unmarshal_bool_invalid_witness :
    (ascii "yes" ≠ ascii "null" ∧ ascii "yes" ≠ ascii "true" ∧ ascii "yes" ≠ ascii "false")
      ∧ NullBool.UnmarshalJSON ⟨true, true⟩ (ascii "yes")
          = .ret ⟨true, true⟩ (some (.errorString (ascii "yes is not a valid JSON bool"))) :=
  ⟨by decide,
    C8_unmarshal_bool_invalid ⟨true, true⟩ (ascii "yes") (by decide) (by decide) (by decide)⟩

/-! ## Claims on NullInt64 and NullString, JSON side -/

theorem fmtDigits_all_digits (rounds : Nat) :
    ∀ (u : Nat) (buf : Bytes), u < 10 ^ (rounds + 1) →
      (∀ c ∈ buf, 48 ≤ c.val ∧ c.val ≤ 57) →
      ∀ c ∈ fmtDigits rounds u buf, 48 ≤ c.val ∧ c.val ≤ 57 := by
  induction rounds with
  | zero =>
    intro u buf hr hbuf c hc
    have hu : u < 10 := by simpa using hr
    simp only [fmtDigits, List.mem_cons] at hc
    rcases hc with rfl | hc
    · rw [byte_digit_val u hu]; omega
    · exact hbuf c hc
  | succ r ih =>
    intro u buf hr hbuf c hc
    by_cases hu : u ≥ 10
    · have h2 : 48 + u - u / 10 * 10 = 48 + u % 10 := by omega
      simp only [fmtDigits, hu, if_true, h2] at hc
      refine ih (u / 10) _ (by rw [pow_succ] at hr; omega) ?_ c hc
      intro c' hc'
      simp only [List.mem_cons] at hc'
      rcases hc' with rfl | hc'
      · rw [byte_digit_val (u % 10) (by omega)]; omega
      · exact hbuf c' hc'
    · simp only [fmtDigits, hu, if_false, List.mem_cons] at hc
      rcases hc with rfl | hc
      · rw [byte_digit_val u (by omega)]; omega
      · exact hbuf c hc

theorem fmtInt64_eq_decimalText (n : Int) (hmin : -2 ^ 63 ≤ n) (hmax : n ≤ 2 ^ 63 - 1) :
    fmtInt64 n = decimalText n := by
  by_cases hn : n < 0
  · have h1 : n.natAbs = (-n).toNat := by omega
    rw [fmtInt64_neg n hmin hn, decimalText, if_pos hn, h1,
      ← fmtDigits_eq_repr (-n).toNat (by omega)]
    rfl
  · have h1 : n.natAbs = n.toNat := by omega
    rw [fmtInt64_nonneg n hmax hn, decimalText, if_neg hn, h1,
      ← fmtDigits_eq_repr n.toNat (by omega)]

theorem fmtInt64_ne_null (n : Int) (hmin : -2 ^ 63 ≤ n) (hmax : n ≤ 2 ^ 63 - 1) :
    fmtInt64 n ≠ ascii "null" := by
  by_cases hn : n < 0
  · rw [fmtInt64_neg n hmin hn]; intro h; cases h
  · obtain ⟨c, rest, hc, hc1, hc2⟩ :=
      fmtDigits_head 19 n.toNat [] (by have : n.toNat < 2 ^ 64 := by omega
                                       norm_num at this ⊢; omega)
    rw [fmtInt64_nonneg n hmax hn, hc]
    intro h
    have h110 : c = 110 := (List.cons.inj h).1
    subst h110
    revert hc2
    decide

/-- C3: for every 64-bit signed integer `n` and every prior receiver state the
valid wrapper of `n` marshals, without error, to the decimal numeral of `n`
(only a leading `-` and digits, hence unquoted), and unmarshalling these bytes
returns no error and leaves the receiver equal to `{n, true}`. -/
theorem C3_int64_json_roundtrip (n : Int) (r : NullInt64)
    (hmin : -2 ^ 63 ≤ n) (hmax : n ≤ 2 ^ 63 - 1) :
    NullInt64.MarshalJSON ⟨n, true⟩ = (decimalText n, none)
      ∧ (∀ c ∈ (NullInt64.MarshalJSON ⟨n, true⟩).1,
          c = 45 ∨ (48 ≤ c.val ∧ c.val ≤ 57))
      ∧ NullInt64.UnmarshalJSON r (NullInt64.MarshalJSON ⟨n, true⟩).1
          = .ret ⟨n, true⟩ none := by
  have hM : NullInt64.MarshalJSON ⟨n, true⟩ = (fmtInt64 n, none) := rfl
  refine ⟨by rw [hM, fmtInt64_eq_decimalText n hmin hmax], ?_, ?_⟩
  · rw [hM]
    intro c hc
    by_cases hn : n < 0
    · rw [fmtInt64_neg n hmin hn] at hc
      simp only [List.mem_cons] at hc
      rcases hc with rfl | hc
      · exact Or.inl rfl
      · exact Or.inr (fmtDigits_all_digits 19 (-n).toNat []
          (by have : (-n).toNat < 2 ^ 64 := by omega
              norm_num at this ⊢; omega) (by simp) c hc)
    · rw [fmtInt64_nonneg n hmax hn] at hc
      exact Or.inr (fmtDigits_all_digits 19 n.toNat []
          (by have : n.toNat < 2 ^ 64 := by omega
              norm_num at this ⊢; omega) (by simp) c hc)
  · rw [hM]
    simp only [NullInt64.UnmarshalJSON, fmtInt64_ne_null n hmin hmax, if_false,
      ParseInt_fmtInt64 n hmin hmax]

/-- C3 at the minimum value, with a receiver that held `{7, false}`. -/
theorem C3_int64_json_roundtrip_witness :
    (-2 ^ 63 ≤ (-9223372036854775808 : Int) ∧ (-9223372036854775808 : Int) ≤ 2 ^ 63 - 1)
      ∧ NullInt64.MarshalJSON ⟨-9223372036854775808, true⟩
          = (decimalText (-9223372036854775808), none)
      ∧ (∀ c ∈ (NullInt64.MarshalJSON ⟨-9223372036854775808, true⟩).1,
          c = 45 ∨ (48 ≤ c.val ∧ c.val ≤ 57))
      ∧ NullInt64.UnmarshalJSON ⟨7, false⟩ (NullInt64.MarshalJSON ⟨-9223372036854775808, true⟩).1
          = .ret ⟨-9223372036854775808, true⟩ none :=
  ⟨by decide, C3_int64_json_roundtrip (-9223372036854775808) ⟨7, false⟩ (by decide) (by decide)⟩

theorem NullString_UnmarshalJSON_quoted (r : NullString) (s : Bytes) :
    NullString.UnmarshalJSON r (ascii "\"" ++ s ++ ascii "\"") = .ret ⟨s, true⟩ none := by
  have hq : ascii "\"" = [34] := rfl
  have hne : ([34] ++ s ++ [34] : Bytes) ≠ ascii "null" := by intro h; cases h
  have hs : sliceBytes ([34] ++ s ++ [34]) 1 ((([34] ++ s ++ [34] : Bytes).length : Int) - 1)
      = some s := by
    unfold sliceBytes
    have hlen : (([34] ++ s ++ [34] : Bytes).length : Int) - 1 = ((s.length + 1 : Nat) : Int) := by
      simp
    rw [hlen, if_pos (by constructor <;> [omega; (constructor <;> simp)])]
    simp [List.take_append_eq_append_take]
  rw [hq]
  simp only [NullString.UnmarshalJSON, hne, if_false, hs]

/-- C4 (as stated, refuted): the text `a"b` with its interior quote byte does
come back unchanged, and no text containing a quote byte fails to: for no
`s` does unmarshalling the marshalled valid wrapper of `s` give anything but
the receiver `{s, true}` with a nil error. -/
theorem C4_quote_text_roundtrips :
    NullString.UnmarshalJSON ⟨[], false⟩ (NullString.MarshalJSON ⟨ascii "a\"b", true⟩).1
        = .ret ⟨ascii "a\"b", true⟩ none
      ∧ ¬ ∃ (s : Bytes) (r : NullString), (34 : Byte) ∈ s ∧
          NullString.UnmarshalJSON r (NullString.MarshalJSON ⟨s, true⟩).1
            ≠ .ret ⟨s, true⟩ none := by
  refine ⟨by decide, ?_⟩
  rintro ⟨s, r, -, h⟩
  exact h (NullString_UnmarshalJSON_quoted r s)

/-- C4 (amended): for every text `s`, with or without quote bytes, and every
prior receiver state, the valid wrapper of `s` marshals without error to `s`
between two quote bytes, with nothing escaped, and unmarshalling these bytes
returns no error and leaves the receiver equal to `{s, true}`. -/
theorem C4_string_json_roundtrip (s : Bytes) (r : NullString) :
    NullString.MarshalJSON ⟨s, true⟩ = ((34 : Byte) :: (s ++ [(34 : Byte)]), none)
      ∧ NullString.UnmarshalJSON r (NullString.MarshalJSON ⟨s, true⟩).1
          = .ret ⟨s, true⟩ none :=
  ⟨rfl, NullString_UnmarshalJSON_quoted r s⟩

theorem NullString_UnmarshalJSON_of_two_le (r : NullString) (b : Bytes)
    (hnull : b ≠ ascii "null") (hlen : 2 ≤ b.length) :
    NullString.UnmarshalJSON r b = .ret ⟨b.tail.dropLast, true⟩ none := by
  have hs : sliceBytes b 1 ((b.length : Int) - 1) = some b.tail.dropLast := by
    unfold sliceBytes
    rw [if_pos (by omega)]
    have h1 : ((b.length : Int) - 1).toNat = b.length - 1 := by omega
    have h2 : (1 : Int).toNat = 1 := rfl
    rw [h1, h2, List.dropLast_eq_take, List.drop_one, List.length_tail]
    cases b with
    | nil => simp at hlen
    | cons c cs =>
      cases cs with
      | nil => simp at hlen
      | cons d ds => simp
  simp only [NullString.UnmarshalJSON, hnull, if_false, hs]

/-- C5 (the code at the failing inputs): on the empty byte sequence and on every
byte sequence of length 1, such as the JSON number `5`, `UnmarshalJSON` of
`NullString` panics on its slice expression instead of returning. -/
theorem C5_unmarshal_string_short_panics (r : NullString) :
    NullString.UnmarshalJSON r [] = .panics
      ∧ (∀ c : Byte, NullString.UnmarshalJSON r [c] = .panics)
      ∧ NullString.UnmarshalJSON r (ascii "5") = .panics := by
  have h1 : ∀ c : Byte, NullString.UnmarshalJSON r [c] = .panics := by
    intro c
    have hne : ([c] : Bytes) ≠ ascii "null" := by intro h; cases h
    simp only [NullString.UnmarshalJSON, hne, if_false]
    rfl
  exact ⟨rfl, h1, h1 _⟩

/-! ## Claims on the null side of JSON -/

/-- C6: for each of the five kinds and every content of the value field, an
instance with `Valid = false` marshals to exactly the four bytes `null` with a
nil error. -/
theorem C6_marshal_invalid_is_null :
    ascii "null" = [110, 117, 108, 108]
      ∧ (∀ (marshalTime : time.Time → Bytes × Option Error) (t : time.Time),
          NullTime.MarshalJSON marshalTime ⟨t, false⟩ = (ascii "null", none))
      ∧ (∀ s : Bytes, NullString.MarshalJSON ⟨s, false⟩ = (ascii "null", none))
      ∧ (∀ n : Int, NullInt64.MarshalJSON ⟨n, false⟩ = (ascii "null", none))
      ∧ (∀ (fmtFloat : Float → Bytes) (f : Float),
          NullFloat64.MarshalJSON fmtFloat ⟨f, false⟩ = (ascii "null", none))
      ∧ (∀ v : bool, NullBool.MarshalJSON ⟨v, false⟩ = (ascii "null", none)) :=
  ⟨rfl, fun _ _ => rfl, fun _ => rfl, fun _ => rfl, fun _ _ => rfl, fun _ => rfl⟩

/-- C7: for `NullInt64`, `NullFloat64` and `NullBool` and every prior receiver
state, `UnmarshalJSON` on the bytes `null` returns a nil error and leaves the
receiver with `Valid = false` and the value field as it was. -/
theorem C7_unmarshal_null (ri : NullInt64) (rf : NullFloat64) (rb : NullBool)
    (parseFloat : Bytes → Float × Option Error) :
    NullInt64.UnmarshalJSON ri (ascii "null") = .ret ⟨ri.Int64, false⟩ none
      ∧ NullFloat64.UnmarshalJSON parseFloat rf (ascii "null") = .ret ⟨rf.Float64, false⟩ none
      ∧ NullBool.UnmarshalJSON rb (ascii "null") = .ret ⟨rb.Bool, false⟩ none :=
  ⟨rfl, rfl, rfl⟩

/-! ## Claims on the database side -/

/-- C9: for each of the five kinds `Value()` returns a nil error; its value is
`nil` when `Valid = false`, whatever the value field holds, and the bare value
field, of the scalar's own kind, when `Valid = true`. -/
theorem C9_value :
    (∀ t : time.Time, NullTime.Value ⟨t, false⟩ = (.nil, none)
        ∧ NullTime.Value ⟨t, true⟩ = (.time t, none))
      ∧ (∀ s : Bytes, NullString.Value ⟨s, false⟩ = (.nil, none)
        ∧ NullString.Value ⟨s, true⟩ = (.string s, none))
      ∧ (∀ n : Int, NullInt64.Value ⟨n, false⟩ = (.nil, none)
        ∧ NullInt64.Value ⟨n, true⟩ = (.int64 n, none))
      ∧ (∀ f : Float, NullFloat64.Value ⟨f, false⟩ = (.nil, none)
        ∧ NullFloat64.Value ⟨f, true⟩ = (.float64 f, none))
      ∧ (∀ v : bool, NullBool.Value ⟨v, false⟩ = (.nil, none)
        ∧ NullBool.Value ⟨v, true⟩ = (.bool v, none)) :=
  ⟨fun _ => ⟨rfl, rfl⟩, fun _ => ⟨rfl, rfl⟩, fun _ => ⟨rfl, rfl⟩, fun _ => ⟨rfl, rfl⟩,
    fun _ => ⟨rfl, rfl⟩⟩

/-- C10: `Scan(nil)` on `NullInt64` returns a nil error and sets `Valid = false`
with the value field unchanged; `Scan` of an `int64` `v` returns a nil error
and leaves `{v, true}`; `Scan` of an input `x` that is neither `nil` nor an
`int64` panics.  Likewise `NullFloat64` with `float64` and `NullBool` with
`bool`. -/
theorem C10_scan (ri : NullInt64) (rf : NullFloat64) (rb : NullBool) (x : Iface)
    (hnil : x ≠ .nil) :
    (NullInt64.Scan ri .nil = .ret ⟨ri.Int64, false⟩ none
        ∧ (∀ v : Int, NullInt64.Scan ri (.int64 v) = .ret ⟨v, true⟩ none)
        ∧ ((∀ v : Int, x ≠ .int64 v) → NullInt64.Scan ri x = .panics))
      ∧ (NullFloat64.Scan rf .nil = .ret ⟨rf.Float64, false⟩ none
        ∧ (∀ v : Float, NullFloat64.Scan rf (.float64 v) = .ret ⟨v, true⟩ none)
        ∧ ((∀ v : Float, x ≠ .float64 v) → NullFloat64.Scan rf x = .panics))
      ∧ (NullBool.Scan rb .nil = .ret ⟨rb.Bool, false⟩ none
        ∧ (∀ v : bool, NullBool.Scan rb (.bool v) = .ret ⟨v, true⟩ none)
        ∧ ((∀ v : bool, x ≠ .bool v) → NullBool.Scan rb x = .panics)) := by
  refine ⟨⟨rfl, fun _ => rfl, ?_⟩, ⟨rfl, fun _ => rfl, ?_⟩, ⟨rfl, fun _ => rfl, ?_⟩⟩
  · intro h
    cases x <;> first | rfl | exact absurd rfl hnil | exact absurd rfl (h _)
  · intro h
    cases x <;> first | rfl | exact absurd rfl hnil | exact absurd rfl (h _)
  · intro h
    cases x <;> first | rfl | exact absurd rfl hnil | exact absurd rfl (h _)

/-- C10 at the inputs the claim names: an `int32`, a `string` and a `NullInt64`
each make `NullInt64.Scan` panic, and the `string` makes all three panic. -/
theorem C10_scan_witness :
    (Iface.string (ascii "7") ≠ Iface.nil)
      ∧ NullInt64.Scan ⟨3, true⟩ (.int32 7) = .panics
      ∧ NullInt64.Scan ⟨3, true⟩ (.NullInt64 ⟨7, true⟩) = .panics
      ∧ NullInt64.Scan ⟨3, true⟩ (.string (ascii "7")) = .panics
      ∧ NullFloat64.Scan ⟨0, true⟩ (.string (ascii "7")) = .panics
      ∧ NullBool.Scan ⟨true, true⟩ (.string (ascii "7")) = .panics :=
  ⟨by simp,
    (C10_scan ⟨3, true⟩ ⟨0, true⟩ ⟨true, true⟩ (.int32 7) (by simp)).1.2.2 (by simp),
    (C10_scan ⟨3, true⟩ ⟨0, true⟩ ⟨true, true⟩ (.NullInt64 ⟨7, true⟩) (by simp)).1.2.2 (by simp),
    (C10_scan ⟨3, true⟩ ⟨0, true⟩ ⟨true, true⟩ (.string (ascii "7")) (by simp)).1.2.2 (by simp),
    (C10_scan ⟨3, true⟩ ⟨0, true⟩ ⟨true, true⟩ (.string (ascii "7")) (by simp)).2.1.2.2 (by simp),
    (C10_scan ⟨3, true⟩ ⟨0, true⟩ ⟨true, true⟩ (.string (ascii "7")) (by simp)).2.2.2.2 (by simp)⟩

/-! ## What `ParseInt` accepts -/

theorem foldl_digit_ge (cs : Bytes) :
    ∀ n : Nat, n ≤ cs.foldl (fun a c => a * 10 + (c.val - 48)) n := by
  induction cs with
  | nil => intro n; exact Nat.le_refl n
  | cons c cs ih =>
    intro n
    have := ih (n * 10 + (c.val - 48))
    simp only [List.foldl_cons]
    omega

theorem parseUintLoop_spec (s0 : Bytes) (cs : Bytes) :
    ∀ n : Nat, n < 2 ^ 64 →
      (((∀ d ∈ cs, 48 ≤ d.val ∧ d.val ≤ 57)
          ∧ cs.foldl (fun a c => a * 10 + (c.val - 48)) n < 2 ^ 64) →
        parseUintLoop s0 n cs = (cs.foldl (fun a c => a * 10 + (c.val - 48)) n, none))
      ∧ (¬ ((∀ d ∈ cs, 48 ≤ d.val ∧ d.val ≤ 57)
          ∧ cs.foldl (fun a c => a * 10 + (c.val - 48)) n < 2 ^ 64) →
        parseUintLoop s0 n cs = (0, some (syntaxError (ascii "ParseUint") s0))
          ∨ parseUintLoop s0 n cs = (maxUint64, some (rangeError (ascii "ParseUint") s0))) := by
  induction cs with
  | nil =>
    intro n hn
    refine ⟨fun _ => rfl, fun h => absurd ⟨by simp, hn⟩ h⟩
  | cons c cs ih =>
    intro n hn
    have hge := foldl_digit_ge cs (n * 10 + (c.val - 48))
    by_cases hd : 48 ≤ c.val ∧ c.val ≤ 57
    · by_cases h1 : n ≥ maxUint64 / 10 + 1
      · have hl : parseUintLoop s0 n (c :: cs)
            = (maxUint64, some (rangeError (ascii "ParseUint") s0)) := by
          simp only [parseUintLoop, hd, h1, and_self, if_true]
        have hbig : ¬ (List.foldl (fun a c => a * 10 + (c.val - 48)) n (c :: cs) < 2 ^ 64) := by
          simp only [List.foldl_cons]
          simp only [maxUint64] at h1
          omega
        exact ⟨fun h => absurd h.2 hbig, fun _ => Or.inr hl⟩
      · have h1' : n * 10 < 2 ^ 64 := by simp only [maxUint64] at h1; omega
        have hm : n * 10 % 2 ^ 64 = n * 10 := Nat.mod_eq_of_lt h1'
        by_cases h2 : n * 10 + (c.val - 48) < 2 ^ 64
        · have hm2 : (n * 10 + (c.val - 48)) % 2 ^ 64 = n * 10 + (c.val - 48) :=
            Nat.mod_eq_of_lt h2
          have h3 : ¬ (n * 10 + (c.val - 48) < n * 10 ∨ n * 10 + (c.val - 48) > maxUint64) := by
            simp only [maxUint64]; omega
          have hl : parseUintLoop s0 n (c :: cs)
              = parseUintLoop s0 (n * 10 + (c.val - 48)) cs := by
            simp only [parseUintLoop, hd, h1, hm, hm2, h3, and_self, if_true, if_false]
          have hall : (∀ d ∈ c :: cs, 48 ≤ d.val ∧ d.val ≤ 57)
              ↔ (∀ d ∈ cs, 48 ≤ d.val ∧ d.val ≤ 57) := by
            simp only [List.mem_cons, forall_eq_or_imp, hd, and_self, true_and]
          rw [hl, hall, List.foldl_cons]
          exact ih _ h2
        · have hm2 : (n * 10 + (c.val - 48)) % 2 ^ 64 = n * 10 + (c.val - 48) - 2 ^ 64 := by
            omega
          have h3 : n * 10 + (c.val - 48) - 2 ^ 64 < n * 10 ∨
              n * 10 + (c.val - 48) - 2 ^ 64 > maxUint64 := by
            left; omega
          have hl : parseUintLoop s0 n (c :: cs)
              = (maxUint64, some (rangeError (ascii "ParseUint") s0)) := by
            simp only [parseUintLoop, hd, h1, hm, hm2, h3, and_self, if_true, if_false]
          have hbig : ¬ (List.foldl (fun a c => a * 10 + (c.val - 48)) n (c :: cs) < 2 ^ 64) := by
            simp only [List.foldl_cons]
            omega
          exact ⟨fun h => absurd h.2 hbig, fun _ => Or.inr hl⟩
    · have hl : parseUintLoop s0 n (c :: cs)
          = (0, some (syntaxError (ascii "ParseUint") s0)) := by
        simp only [parseUintLoop, hd, if_false]
      exact ⟨fun h => absurd (h.1 c (List.mem_cons_self c cs)) hd, fun _ => Or.inl hl⟩

theorem ParseUint_spec (ds : Bytes) :
    ((ds ≠ [] ∧ (∀ d ∈ ds, 48 ≤ d.val ∧ d.val ≤ 57) ∧ digitsValue ds < 2 ^ 64) →
        ParseUint ds = (digitsValue ds, none))
      ∧ (¬ (ds ≠ [] ∧ (∀ d ∈ ds, 48 ≤ d.val ∧ d.val ≤ 57) ∧ digitsValue ds < 2 ^ 64) →
        ParseUint ds = (0, some (syntaxError (ascii "ParseUint") ds))
          ∨ ParseUint ds = (maxUint64, some (rangeError (ascii "ParseUint") ds))) := by
  by_cases hne : ds = []
  · subst hne
    exact ⟨fun h => absurd rfl h.1, fun _ => Or.inl rfl⟩
  · have hP : ParseUint ds = parseUintLoop ds 0 ds := by
      unfold ParseUint; rw [if_neg hne]
    have h := parseUintLoop_spec ds ds 0 (by norm_num)
    rw [hP]
    exact ⟨fun hh => h.1 hh.2, fun hh => h.2 (fun hc => hh ⟨hne, hc⟩)⟩

theorem ParseInt_spec (s : Bytes) :
    (∃ v, isInt64Literal s v ∧ ParseInt s = (v, none))
      ∨ ((∀ v, ¬ isInt64Literal s v) ∧ ∃ v e, ParseInt s = (v, some e)) := by
  cases s with
  | nil =>
    right
    exact ⟨fun v h => by simp [isInt64Literal, decimalLiteral] at h, _, _, rfl⟩
  | cons c rest =>
    obtain ⟨ds, hds⟩ : ∃ ds, ds = (if c = 43 ∨ c = 45 then rest else c :: rest) := ⟨_, rfl⟩
    have hlit : decimalLiteral (c :: rest)
        = if ds ≠ [] ∧ allDigits ds then
            some (if c = 45 then -(digitsValue ds : Int) else (digitsValue ds : Int))
          else none := by
      simp only [decimalLiteral, hds]
    have hparse : ParseInt (c :: rest)
        = match ParseUint ds with
          | (_, some (.NumError _ _ .ErrSyntax)) =>
            (0, some (syntaxError (ascii "ParseInt") (c :: rest)))
          | (un, _) =>
            if !(decide (c = 45)) ∧ un ≥ 2 ^ 63 then
              (((2 ^ 63 : Nat) : Int) - 1, some (rangeError (ascii "ParseInt") (c :: rest)))
            else if (decide (c = 45)) ∧ un > 2 ^ 63 then
              (-((2 ^ 63 : Nat) : Int), some (rangeError (ascii "ParseInt") (c :: rest)))
            else
              (if (decide (c = 45)) then negInt64 (toInt64 un) else toInt64 un, none) := by
      simp only [ParseInt, hds]
    have hU := ParseUint_spec ds
    by_cases hgood : ds ≠ [] ∧ (∀ d ∈ ds, 48 ≤ d.val ∧ d.val ≤ 57) ∧ digitsValue ds < 2 ^ 64
    · have hPU := hU.1 hgood
      have hcond : ds ≠ [] ∧ allDigits ds := ⟨hgood.1, hgood.2.1⟩
      rw [if_pos hcond] at hlit
      rw [hPU] at hparse
      have hlt := hgood.2.2
      by_cases hneg : c = 45
      · by_cases hr : digitsValue ds > 2 ^ 63
        · right
          have hres : ParseInt (c :: rest)
              = (-((2 ^ 63 : Nat) : Int), some (rangeError (ascii "ParseInt") (c :: rest))) := by
            rw [hparse]; simp [hneg]; omega
          refine ⟨fun v hv => ?_, _, _, hres⟩
          obtain ⟨h1, h2, h3⟩ := hv
          rw [hlit, if_pos hneg] at h1
          have := Option.some.inj h1
          omega
        · left
          have hv : negInt64 (toInt64 (digitsValue ds)) = -(digitsValue ds : Int) := by
            unfold negInt64 toInt64 toUint64
            split <;> split <;> omega
          have hres : ParseInt (c :: rest) = (-(digitsValue ds : Int), none) := by
            rw [hparse]; simp [hneg, hv]; omega
          refine ⟨-(digitsValue ds : Int), ⟨?_, by omega, by omega⟩, hres⟩
          rw [hlit, if_pos hneg]
      · by_cases hr : digitsValue ds ≥ 2 ^ 63
        · right
          have hres : ParseInt (c :: rest)
              = (((2 ^ 63 : Nat) : Int) - 1, some (rangeError (ascii "ParseInt") (c :: rest))) := by
            rw [hparse]; simp [hneg]; omega
          refine ⟨fun v hv => ?_, _, _, hres⟩
          obtain ⟨h1, h2, h3⟩ := hv
          rw [hlit, if_neg hneg] at h1
          have := Option.some.inj h1
          omega
        · left
          have hv : toInt64 (digitsValue ds) = (digitsValue ds : Int) := by
            unfold toInt64
            split <;> omega
          have hres : ParseInt (c :: rest) = ((digitsValue ds : Int), none) := by
            rw [hparse]; simp [hneg, hv]; omega
          refine ⟨(digitsValue ds : Int), ⟨?_, by omega, by omega⟩, hres⟩
          rw [hlit, if_neg hneg]
    · right
      refine ⟨fun v hv => ?_, ?_⟩
      · obtain ⟨h1, h2, h3⟩ := hv
        rw [hlit] at h1
        by_cases hcond : ds ≠ [] ∧ allDigits ds
        · rw [if_pos hcond] at h1
          have hbig : ¬ digitsValue ds < 2 ^ 64 := fun h => hgood ⟨hcond.1, hcond.2, h⟩
          have := Option.some.inj h1
          split at this <;> omega
        · rw [if_neg hcond] at h1
          cases h1
      · rcases hU.2 hgood with hPU | hPU
        · rw [hPU] at hparse
          exact ⟨_, _, hparse⟩
        · rw [hPU] at hparse
          by_cases hneg : c = 45
          · have hres : ParseInt (c :: rest)
                = (-((2 ^ 63 : Nat) : Int), some (rangeError (ascii "ParseInt") (c :: rest))) := by
              rw [hparse]; simp [hneg, maxUint64, rangeError]
            exact ⟨_, _, hres⟩
          · have hres : ParseInt (c :: rest)
                = (((2 ^ 63 : Nat) : Int) - 1, some (rangeError (ascii "ParseInt") (c :: rest))) := by
              rw [hparse]; simp [hneg, maxUint64, rangeError]
            exact ⟨_, _, hres⟩

/-! ## Claims on Scan of NullTime -/

/-- C11: `NullTime.Scan` on an input that is not `nil`, not a `time.Time` and
not a `NullTime` returns a nil error and leaves both fields of the receiver as
they were; on a `NullTime` it copies both fields of the input, so that an
invalid input gives `Valid = false`; on a `time.Time` `t` it gives `{t, true}`. -/
theorem C11_nulltime_scan (r : NullTime) (x : Iface)
    (hnil : x ≠ .nil) (htime : ∀ t, x ≠ .time t) (hnt : ∀ v, x ≠ .NullTime v) :
    NullTime.Scan r x = .ret r none
      ∧ (∀ v : NullTime, NullTime.Scan r (.NullTime v) = .ret ⟨v.Time, v.Valid⟩ none)
      ∧ (∀ t : time.Time, NullTime.Scan r (.NullTime ⟨t, false⟩) = .ret ⟨t, false⟩ none)
      ∧ (∀ t : time.Time, NullTime.Scan r (.time t) = .ret ⟨t, true⟩ none) := by
  refine ⟨?_, fun _ => rfl, fun _ => rfl, fun _ => rfl⟩
  cases x <;> first
    | rfl
    | exact absurd rfl hnil
    | exact absurd rfl (htime _)
    | exact absurd rfl (hnt _)

/-- C11 at an `int64` input and a valid receiver. -/
theorem C11_nulltime_scan_witness :
    (Iface.int64 5 ≠ Iface.nil)
      ∧ NullTime.Scan ⟨⟨2024, 12, 31, 0, 0, 0, 0⟩, true⟩ (.int64 5)
          = .ret ⟨⟨2024, 12, 31, 0, 0, 0, 0⟩, true⟩ none :=
  ⟨by simp,
    (C11_nulltime_scan ⟨⟨2024, 12, 31, 0, 0, 0, 0⟩, true⟩ (.int64 5)
      (by simp) (by simp) (by simp)).1⟩

/-! ## Claims on the form converters -/

/-- C12: `NullStringConverter`, `NullInt64Converter`, `NullFloat64Converter`
and `NullBoolConverter` applied to the empty string each return the wrapper
with `Valid = false` and the zero value in the value field. -/
theorem C12_converters_empty (parseFloat : Bytes → Float × Option Error) :
    NullStringConverter (ascii "") = ⟨[], false⟩
      ∧ NullInt64Converter (ascii "") = ⟨0, false⟩
      ∧ NullFloat64Converter parseFloat (ascii "") = ⟨0, false⟩
      ∧ NullBoolConverter (ascii "") = ⟨false, false⟩ :=
  ⟨rfl, rfl, rfl, rfl⟩

/-- C13 (as stated, refuted): `NullBoolConverter("on")` is not
`NullBool{Bool: true, Valid: true}`; it is the wrapper with both fields
false. -/
theorem C13_nullbool_on_is_invalid :
    NullBoolConverter (ascii "on") ≠ ⟨true, true⟩
      ∧ NullBoolConverter (ascii "on") = ⟨false, false⟩ := by
  decide

theorem ParseBool_true_iff (s : Bytes) :
    ParseBool s = (true, none)
      ↔ s ∈ [ascii "1", ascii "t", ascii "T", ascii "true", ascii "TRUE", ascii "True"] := by
  unfold ParseBool
  split
  · simp [*]
  · split <;> simp [*]

/-- C13 (amended): the text `on` is decoded to `true` by the plain-bool helper
`ConvertBool`, while `NullBoolConverter`, which parses with general boolean
parsing only, returns for `on` the wrapper with `Valid = false`; it returns
`{true, true}` exactly for the texts `1`, `t`, `T`, `true`, `TRUE`, `True`. -/
theorem C13_on_by_helper_only (s : Bytes) :
    ConvertBool (ascii "on") = true
      ∧ NullBoolConverter (ascii "on") = ⟨false, false⟩
      ∧ (NullBoolConverter s = ⟨true, true⟩
          ↔ s ∈ [ascii "1", ascii "t", ascii "T", ascii "true", ascii "TRUE", ascii "True"]) := by
  refine ⟨by decide, by decide, ?_⟩
  rw [← ParseBool_true_iff]
  by_cases he : s = ascii ""
  · subst he; decide
  · unfold NullBoolConverter
    simp only [he, if_false]
    rcases h : ParseBool s with ⟨v, _ | e⟩ <;> cases v <;> simp

/-- C14: `ConvertBool` gives a plain boolean for every text: `true` exactly for
`on` and for the spellings `1`, `t`, `T`, `TRUE`, `true`, `True` that general
boolean parsing reads as true, and `false` for every other text, among them
the spellings `0`, `f`, `F`, `FALSE`, `false`, `False` that parse as false and
the empty text, which does not parse. -/
theorem C14_ConvertBool (s : Bytes) :
    (ConvertBool s = true
        ↔ s ∈ [ascii "on", ascii "1", ascii "t", ascii "T", ascii "TRUE", ascii "true",
            ascii "True"])
      ∧ (ConvertBool s = false
        ↔ s ∉ [ascii "on", ascii "1", ascii "t", ascii "T", ascii "TRUE", ascii "true",
            ascii "True"])
      ∧ (∀ t ∈ [ascii "1", ascii "t", ascii "T", ascii "TRUE", ascii "true", ascii "True"],
          ParseBool t = (true, none) ∧ ConvertBool t = true)
      ∧ (∀ t ∈ [ascii "0", ascii "f", ascii "F", ascii "FALSE", ascii "false", ascii "False"],
          ParseBool t = (false, none) ∧ ConvertBool t = false)
      ∧ ConvertBool (ascii "on") = true
      ∧ (ParseBool (ascii "")).2 ≠ none ∧ ConvertBool (ascii "") = false := by
  have key : ConvertBool s = true
      ↔ s ∈ [ascii "on", ascii "1", ascii "t", ascii "T", ascii "TRUE", ascii "true",
          ascii "True"] := by
    by_cases hon : s = ascii "on"
    · subst hon; decide
    · have hP := ParseBool_true_iff s
      have hC : ConvertBool s = true ↔ ParseBool s = (true, none) := by
        unfold ConvertBool
        simp only [hon, if_false]
        rcases h : ParseBool s with ⟨v, _ | e⟩ <;> cases v <;> simp
      rw [hC, hP]
      simp only [List.mem_cons, hon, false_or]
      tauto
  refine ⟨key, ?_, by decide, by decide, by decide, by decide, by decide⟩
  rw [← key]
  cases ConvertBool s <;> simp

/-- C15: `NullInt64Converter` returns a wrapper for every text `s`; the wrapper
has `Valid = true` exactly when `s` is non-empty and is a base-10 integer
literal (optional sign, then digits) whose value fits a 64-bit signed integer,
and then the value field is that integer. -/
theorem C15_NullInt64Converter (s : Bytes) :
    ((NullInt64Converter s).Valid = true ↔ s ≠ [] ∧ ∃ v, isInt64Literal s v)
      ∧ ((NullInt64Converter s).Valid = true →
          isInt64Literal s (NullInt64Converter s).Int64) := by
  by_cases he : s = []
  · subst he
    refine ⟨?_, ?_⟩
    · constructor
      · intro h; cases h
      · intro h; exact absurd rfl h.1
    · intro h; cases h
  · have he' : s ≠ ascii "" := he
    rcases ParseInt_spec s with ⟨v, hv, hp⟩ | ⟨hno, v, e, hp⟩
    · have hc : NullInt64Converter s = ⟨v, true⟩ := by
        simp only [NullInt64Converter, he', if_false, hp]
      rw [hc]
      exact ⟨⟨fun _ => ⟨he, v, hv⟩, fun _ => rfl⟩, fun _ => hv⟩
    · have hc : NullInt64Converter s = ⟨v, false⟩ := by
        simp only [NullInt64Converter, he', if_false, hp]
      rw [hc]
      refine ⟨⟨fun h => (by cases h), fun h => ?_⟩, fun h => (by cases h)⟩
      obtain ⟨-, w, hw⟩ := h
      exact absurd hw (hno w)

/-- C15 at the text `-42`. -/
theorem C15_NullInt64Converter_witness :
    (NullInt64Converter (ascii "-42")).Valid = true
      ∧ isInt64Literal (ascii "-42") (NullInt64Converter (ascii "-42")).Int64
      ∧ NullInt64Converter (ascii "-42") = ⟨-42, true⟩ :=
  ⟨by decide, (C15_NullInt64Converter (ascii "-42")).2 (by decide), by decide⟩

/-! ## Claims on strict JSON decoding of NullInt64 -/

theorem NullInt64_UnmarshalJSON_eq (r : NullInt64) (b : Bytes) (hnull : b ≠ ascii "null") :
    NullInt64.UnmarshalJSON r b
      = match (ParseInt b).2 with
        | some e => .ret ⟨(ParseInt b).1, r.Valid⟩ (some e)
        | none => .ret ⟨(ParseInt b).1, true⟩ none := by
  unfold NullInt64.UnmarshalJSON
  rw [if_neg hnull]

/-- C18: for every byte sequence `b` other than `null`, `UnmarshalJSON` of
`NullInt64` returns (it does not panic); it returns an error exactly when `b`
is not a base-10 integer literal (optional sign, then digits) whose value fits
a 64-bit signed integer; and when it returns no error the receiver is the
parsed integer with `Valid = true`. -/
theorem C18_unmarshal_int64_strict (r : NullInt64) (b : Bytes) (hnull : b ≠ ascii "null") :
    (∃ r' err, NullInt64.UnmarshalJSON r b = .ret r' err)
      ∧ ((∃ r' e, NullInt64.UnmarshalJSON r b = .ret r' (some e)) ↔ ¬ ∃ v, isInt64Literal b v)
      ∧ (∀ r', NullInt64.UnmarshalJSON r b = .ret r' none →
          ∃ v, isInt64Literal b v ∧ r' = ⟨v, true⟩)
      ∧ (∀ v, isInt64Literal b v → NullInt64.UnmarshalJSON r b = .ret ⟨v, true⟩ none) := by
  have hU := NullInt64_UnmarshalJSON_eq r b hnull
  rcases ParseInt_spec b with ⟨v, hv, hp⟩ | ⟨hno, v, e, hp⟩
  · rw [hp] at hU
    have hU' : NullInt64.UnmarshalJSON r b = .ret ⟨v, true⟩ none := hU
    refine ⟨⟨_, _, hU'⟩, ⟨?_, ?_⟩, ?_, ?_⟩
    · rintro ⟨r', e, h⟩
      rw [hU'] at h
      cases h
    · intro h; exact absurd ⟨v, hv⟩ h
    · intro r' h
      rw [hU'] at h
      cases h
      exact ⟨v, hv, rfl⟩
    · intro w hw
      have : w = v := Option.some.inj (hw.1.symm.trans hv.1)
      rw [this]; exact hU'
  · rw [hp] at hU
    have hU' : NullInt64.UnmarshalJSON r b = .ret ⟨v, r.Valid⟩ (some e) := hU
    refine ⟨⟨_, _, hU'⟩, ⟨?_, ?_⟩, ?_, ?_⟩
    · rintro - ⟨w, hw⟩; exact hno w hw
    · intro _; exact ⟨_, _, hU'⟩
    · intro r' h
      rw [hU'] at h
      cases h
    · intro w hw; exact absurd hw (hno w)

/-- C18 at the literal `12` (accepted) and at the text `1.5` (an error). -/
theorem C18_unmarshal_int64_strict_witness :
    (ascii "12" ≠ ascii "null" ∧ ascii "1.5" ≠ ascii "null")
      ∧ NullInt64.UnmarshalJSON ⟨7, false⟩ (ascii "12") = .ret ⟨12, true⟩ none
      ∧ ∃ r' e, NullInt64.UnmarshalJSON ⟨7, false⟩ (ascii "1.5") = .ret r' (some e) :=
  ⟨by decide,
    (C18_unmarshal_int64_strict ⟨7, false⟩ (ascii "12") (by decide)).2.2.2 12 (by decide),
    (C18_unmarshal_int64_strict ⟨7, false⟩ (ascii "1.5") (by decide)).2.1.2
      (by rintro ⟨v, h, -⟩
          have hn : decimalLiteral (ascii "1.5") = none := by decide
          rw [hn] at h
          cases h)⟩

/-- C19: when `UnmarshalJSON` of `NullInt64` returns an error, the `Valid` flag
of the receiver is the one it had before the call; the receiver differs from
its prior state at most in the value field, which holds the value result of
`ParseInt`. -/
theorem C19_unmarshal_int64_error_keeps_valid (r r' : NullInt64) (b : Bytes) (e : Error)
    (h : NullInt64.UnmarshalJSON r b = .ret r' (some e)) :
    r'.Valid = r.Valid ∧ r' = ⟨(ParseInt b).1, r.Valid⟩ := by
  by_cases hnull : b = ascii "null"
  · subst hnull
    cases h
  · rw [NullInt64_UnmarshalJSON_eq r b hnull] at h
    rcases hp : (ParseInt b).2 with _ | e'
    · rw [hp] at h; cases h
    · rw [hp] at h
      cases h
      exact ⟨rfl, rfl⟩

/-- C19 at an out-of-range literal: the error leaves a valid receiver valid and
an invalid one invalid, and the value field is overwritten. -/
theorem C19_unmarshal_int64_error_keeps_valid_witness :
    NullInt64.UnmarshalJSON ⟨5, true⟩ (ascii "99999999999999999999")
        = .ret ⟨9223372036854775807, true⟩
            (some (rangeError (ascii "ParseInt") (ascii "99999999999999999999")))
      ∧ (⟨9223372036854775807, true⟩ : NullInt64).Valid = (⟨5, true⟩ : NullInt64).Valid
      ∧ (⟨9223372036854775807, true⟩ : NullInt64)
          = ⟨(ParseInt (ascii "99999999999999999999")).1, (⟨5, true⟩ : NullInt64).Valid⟩ :=
  ⟨by decide,
    C19_unmarshal_int64_error_keeps_valid ⟨5, true⟩ ⟨9223372036854775807, true⟩
      (ascii "99999999999999999999")
      (rangeError (ascii "ParseInt") (ascii "99999999999999999999")) (by decide)⟩

/-! ## Store round trip -/

/-- C20: for `NullInt64`, `NullBool` and `NullString`, every wrapper `x` and
every prior receiver state `r`, `Value()` of `x` returns a nil error and
scanning its value into `r` returns a nil error; the receiver becomes `x` when
`x.Valid` is true and otherwise has `Valid = false` with the value field of
`r`. -/
theorem C20_store_roundtrip (fmtOther : Iface → Bytes) :
    (∀ x r : NullInt64, x.Value.2 = none
        ∧ NullInt64.Scan r x.Value.1
          = .ret (if x.Valid then x else ⟨r.Int64, false⟩) none)
      ∧ (∀ x r : NullBool, x.Value.2 = none
        ∧ NullBool.Scan r x.Value.1
          = .ret (if x.Valid then x else ⟨r.Bool, false⟩) none)
      ∧ (∀ x r : NullString, x.Value.2 = none
        ∧ NullString.Scan fmtOther r x.Value.1
          = .ret (if x.Valid then x else ⟨r.String, false⟩) none) := by
  refine ⟨?_, ?_, ?_⟩ <;>
  · rintro ⟨v, valid⟩ r
    cases valid <;> exact ⟨rfl, rfl⟩

/-! ## Claims on the form converter of NullTime -/

theorem nextStdChunk_HTMLFormTime :
    time.nextStdChunk HTMLFormTime = ([], .stdHour, ascii ":04")
      ∧ time.nextStdChunk (ascii ":04") = (ascii ":", .stdZeroMinute, [])
      ∧ time.nextStdChunk [] = ([], .stdNone, []) := by
  decide

theorem skip_nil (n : Nat) (value : Bytes) : time.skip n value [] = some value := by
  cases n <;> rfl

theorem parseLoop_HTMLFormTime (value : Bytes) (st : time.parseState) :
    time.parseLoop 6 HTMLFormTime value st
      = match time.parseStd .stdHour value st with
        | .error e => .error e
        | .ok (st1, v1) =>
          match time.skip 1 v1 (ascii ":") with
          | none => .error (time.parseError "")
          | some v2 =>
            match time.parseStd .stdZeroMinute v2 st1 with
            | .error e => .error e
            | .ok (st2, v3) =>
              if v3.length ≠ 0 then .error (time.parseError ": extra text") else .ok st2 := by
  obtain ⟨h1, h2, h3⟩ := nextStdChunk_HTMLFormTime
  have hlen : (ascii ":").length = 1 := rfl
  simp only [time.parseLoop, h1, h2, h3, skip_nil, hlen, List.length_nil, reduceCtorEq, if_false,
    if_true]
theorem normDate_jan1 : time.normDate 0 1 1 = (0, 1, 1) ∧ time.normDate 1 1 1 = (1, 1, 1) := by
  decide

theorem Date_clock_jan1 (y h m : Int) (hy : y = 0 ∨ y = 1)
    (h0 : 0 ≤ h) (h1 : h < 24) (m0 : 0 ≤ m) (m1 : m < 60) :
    time.Date y 1 1 h m 0 0 = ⟨y, 1, 1, h.toNat, m.toNat, 0, 0⟩ := by
  have e1 : m / 60 = 0 := by omega
  have e2 : m % 60 = m := by omega
  have e3 : h / 24 = 0 := by omega
  have e4 : h % 24 = h := by omega
  have e5 : time.normDate y 1 1 = (y, 1, 1) := by
    rcases hy with rfl | rfl
    · exact normDate_jan1.1
    · exact normDate_jan1.2
  unfold time.Date
  simp only [Int.zero_ediv, Int.zero_emod, add_zero, e1, e2, e3, e4, e5]
  rfl

theorem AddDate_clock_year0 (h m : Nat) (h1 : h < 24) (m1 : m < 60) :
    (⟨0, 1, 1, h, m, 0, 0⟩ : time.Time).AddDate 1 0 0 = ⟨1, 1, 1, h, m, 0, 0⟩ := by
  have := Date_clock_jan1 1 (h : Int) (m : Int) (Or.inr rfl) (by omega) (by omega) (by omega)
    (by omega)
  simpa [time.Time.AddDate] using this

theorem parseStd_stdHour (value : Bytes) (st : time.parseState) :
    time.parseStd .stdHour value st
      = match time.getnum value false with
        | none => .error (time.parseError "")
        | some (hour, value) =>
          if hour < 0 ∨ 24 ≤ hour then .error (time.parseError ": hour out of range")
          else .ok ({ st with hour := hour }, value) := rfl

theorem parseStd_stdZeroMinute (value : Bytes) (st : time.parseState) :
    time.parseStd .stdZeroMinute value st
      = match time.getnum value true with
        | none => .error (time.parseError "")
        | some (min, value) =>
          if min < 0 ∨ 60 ≤ min then .error (time.parseError ": minute out of range")
          else .ok ({ st with min := min }, value) := by
  simp [time.parseStd]

/-- What a successful parse under the bare time-of-day layout looks like. -/
theorem Parse_HTMLFormTime_ok (b : Bytes) (t : time.Time)
    (h : time.Parse HTMLFormTime b = (t, none)) :
    ∃ hh mm : Nat, hh < 24 ∧ mm < 60 ∧ t = ⟨0, 1, 1, hh, mm, 0, 0⟩ := by
  have hlen : HTMLFormTime.length + 1 = 6 := rfl
  unfold time.Parse at h
  rw [hlen, parseLoop_HTMLFormTime, parseStd_stdHour] at h
  rcases hg : time.getnum b false with _ | ⟨hour, v1⟩
  · rw [hg] at h; simp at h
  · rw [hg] at h
    by_cases hr : hour < 0 ∨ 24 ≤ hour
    · simp [hr] at h
    · simp only [hr, if_false] at h
      rcases hs : time.skip 1 v1 (ascii ":") with _ | v2
      · rw [hs] at h; simp at h
      · rw [hs] at h
        simp only [parseStd_stdZeroMinute] at h
        rcases hg2 : time.getnum v2 true with _ | ⟨min, v3⟩
        · rw [hg2] at h; simp at h
        · rw [hg2] at h
          by_cases hr2 : min < 0 ∨ 60 ≤ min
          · simp [hr2] at h
          · simp only [hr2, if_false] at h
            by_cases hv : v3.length ≠ 0
            · simp [hv] at h
            · simp only [hv, if_false] at h
              have hd : time.daysIn 1 0 = 31 := by decide
              norm_num [hd] at h
              have hD := Date_clock_jan1 0 hour min (Or.inl rfl) (by omega) (by omega) (by omega)
                (by omega)
              rw [hD] at h
              exact ⟨hour.toNat, min.toNat, by omega, by omega, h.symm⟩
theorem getnum_two_digits (a b : Nat) (ha : a < 10) (hb : b < 10) (r : Bytes) (fixed : bool) :
    time.getnum ((Fin.ofNat (48 + a) : Byte) :: (Fin.ofNat (48 + b) : Byte) :: r) fixed
      = some ((a : Int) * 10 + (b : Int), r) := by
  have hva := byte_digit_val a ha
  have hvb := byte_digit_val b hb
  have h0 : time.isDigit ((Fin.ofNat (48 + a) : Byte) :: (Fin.ofNat (48 + b) : Byte) :: r) 0
      = true := by
    simp only [time.isDigit, List.get?, hva]
    simp; omega
  have h1 : time.isDigit ((Fin.ofNat (48 + a) : Byte) :: (Fin.ofNat (48 + b) : Byte) :: r) 1
      = true := by
    simp only [time.isDigit, List.get?, hvb]
    simp; omega
  simp only [time.getnum, h0, h1, Bool.not_true, Bool.false_eq_true, if_false, hva, hvb]
  congr 2
  push_cast
  omega

theorem Parse_HTMLFormTime_hhmm (h m : Nat) (hh : h < 24) (hm : m < 60) :
    time.Parse HTMLFormTime
        [Fin.ofNat (48 + h / 10), Fin.ofNat (48 + h % 10), 58,
          Fin.ofNat (48 + m / 10), Fin.ofNat (48 + m % 10)]
      = (⟨0, 1, 1, h, m, 0, 0⟩, none) := by
  have hlen : HTMLFormTime.length + 1 = 6 := rfl
  have g1 := getnum_two_digits (h / 10) (h % 10) (by omega) (by omega)
    [58, Fin.ofNat (48 + m / 10), Fin.ofNat (48 + m % 10)] false
  have g2 := getnum_two_digits (m / 10) (m % 10) (by omega) (by omega) [] true
  have e1 : ((h / 10 : Nat) : Int) * 10 + ((h % 10 : Nat) : Int) = (h : Int) := by omega
  have e2 : ((m / 10 : Nat) : Int) * 10 + ((m % 10 : Nat) : Int) = (m : Int) := by omega
  rw [e1] at g1
  rw [e2] at g2
  have hs : time.skip 1 [58, Fin.ofNat (48 + m / 10), Fin.ofNat (48 + m % 10)] (ascii ":")
      = some [Fin.ofNat (48 + m / 10), Fin.ofNat (48 + m % 10)] := rfl
  have hr1 : ¬ ((h : Int) < 0 ∨ 24 ≤ (h : Int)) := by omega
  have hr2 : ¬ ((m : Int) < 0 ∨ 60 ≤ (m : Int)) := by omega
  have hd : time.daysIn 1 0 = 31 := by decide
  have hD := Date_clock_jan1 0 h m (Or.inl rfl) (by omega) (by omega) (by omega) (by omega)
  unfold time.Parse
  rw [hlen, parseLoop_HTMLFormTime, parseStd_stdHour, g1]
  simp only [hr1, if_false, hs, parseStd_stdZeroMinute, g2, hr2]
  norm_num [hd, hD]
/-- C16: `NullTimeConverter` tries the layouts in the order `15:04`,
`02-01-2006`, `2006-01-02`, `2006-01-02 3:04 PM`, `02-01-2006 3:04 PM`,
`2006-01-02 15:04`.  For every input the result has `Valid = true` exactly when
some layout parses the input; the `Time` field is then the parse under the
first layout that succeeds, passed through `AddDate(1, 0, 0)` exactly when that
layout is the bare time of day, which turns its year 0 into year 1 and changes
nothing else; when no layout parses the result is the zero wrapper with
`Valid = false`. -/
theorem C16_NullTimeConverter (b : Bytes) :
    formLayouts = [ascii "15:04", ascii "02-01-2006", ascii "2006-01-02",
        ascii "2006-01-02 3:04 PM", ascii "02-01-2006 3:04 PM", ascii "2006-01-02 15:04"]
      ∧ ((NullTimeConverter b).Valid = true ↔ ∃ l ∈ formLayouts, (time.Parse l b).2 = none)
      ∧ (match firstParsingLayout b with
          | none => NullTimeConverter b = ⟨time.zeroTime, false⟩
          | some l =>
            NullTimeConverter b
              = ⟨if l = HTMLFormTime then (time.Parse l b).1.AddDate 1 0 0
                  else (time.Parse l b).1, true⟩)
      ∧ (∀ t, time.Parse HTMLFormTime b = (t, none) →
          t.year = 0 ∧ t.AddDate 1 0 0 = { t with year := t.year + 1 }) := by
  have hne : NZHTMLFormDate ≠ HTMLFormTime ∧ HTMLFormDate ≠ HTMLFormTime
      ∧ HTMLFormDateTime ≠ HTMLFormTime ∧ NZHTMLFormDateTime ≠ HTMLFormTime
      ∧ HTMLFormDateTime24Hr ≠ HTMLFormTime := by decide
  obtain ⟨n1, n2, n3, n4, n5⟩ := hne
  refine ⟨rfl, ?_, ?_, ?_⟩
  · rcases h1 : time.Parse HTMLFormTime b with ⟨v1, _ | e1⟩
    · simp [NullTimeConverter, formLayouts, h1]
    rcases h2 : time.Parse NZHTMLFormDate b with ⟨v2, _ | e2⟩
    · simp [NullTimeConverter, formLayouts, h1, h2]
    rcases h3 : time.Parse HTMLFormDate b with ⟨v3, _ | e3⟩
    · simp [NullTimeConverter, formLayouts, h1, h2, h3]
    rcases h4 : time.Parse HTMLFormDateTime b with ⟨v4, _ | e4⟩
    · simp [NullTimeConverter, formLayouts, h1, h2, h3, h4]
    rcases h5 : time.Parse NZHTMLFormDateTime b with ⟨v5, _ | e5⟩
    · simp [NullTimeConverter, formLayouts, h1, h2, h3, h4, h5]
    rcases h6 : time.Parse HTMLFormDateTime24Hr b with ⟨v6, _ | e6⟩
    · simp [NullTimeConverter, formLayouts, h1, h2, h3, h4, h5, h6]
    · simp [NullTimeConverter, formLayouts, h1, h2, h3, h4, h5, h6]
  · rcases h1 : time.Parse HTMLFormTime b with ⟨v1, _ | e1⟩
    · simp [NullTimeConverter, firstParsingLayout, formLayouts, List.find?, h1]
    rcases h2 : time.Parse NZHTMLFormDate b with ⟨v2, _ | e2⟩
    · simp [NullTimeConverter, firstParsingLayout, formLayouts, List.find?, h1, h2, n1]
    rcases h3 : time.Parse HTMLFormDate b with ⟨v3, _ | e3⟩
    · simp [NullTimeConverter, firstParsingLayout, formLayouts, List.find?, h1, h2, h3, n2]
    rcases h4 : time.Parse HTMLFormDateTime b with ⟨v4, _ | e4⟩
    · simp [NullTimeConverter, firstParsingLayout, formLayouts, List.find?, h1, h2, h3, h4, n3]
    rcases h5 : time.Parse NZHTMLFormDateTime b with ⟨v5, _ | e5⟩
    · simp [NullTimeConverter, firstParsingLayout, formLayouts, List.find?, h1, h2, h3, h4, h5,
        n4]
    rcases h6 : time.Parse HTMLFormDateTime24Hr b with ⟨v6, _ | e6⟩
    · simp [NullTimeConverter, firstParsingLayout, formLayouts, List.find?, h1, h2, h3, h4, h5,
        h6, n5]
    · simp [NullTimeConverter, firstParsingLayout, formLayouts, List.find?, h1, h2, h3, h4, h5,
        h6]
  · intro t ht
    obtain ⟨hh, mm, hh1, mm1, rfl⟩ := Parse_HTMLFormTime_ok b t ht
    exact ⟨rfl, AddDate_clock_year0 hh mm hh1 mm1⟩
/-- C16 at the input `14:30`, which the first layout parses. -/
theorem C16_NullTimeConverter_witness :
    time.Parse HTMLFormTime (ascii "14:30") = (⟨0, 1, 1, 14, 30, 0, 0⟩, none)
      ∧ (⟨0, 1, 1, 14, 30, 0, 0⟩ : time.Time).year = 0
      ∧ (⟨0, 1, 1, 14, 30, 0, 0⟩ : time.Time).AddDate 1 0 0 = ⟨0 + 1, 1, 1, 14, 30, 0, 0⟩ :=
  ⟨by decide,
    (C16_NullTimeConverter (ascii "14:30")).2.2.2 ⟨0, 1, 1, 14, 30, 0, 0⟩ (by decide)⟩

/-- C17: `NullTimeConverter("14:30")` is valid with hour 14, minute 30 and
year 1, one more than the year 0 of the parse; and every input `HH:MM` of two
digits each, with `HH` in 00..23 and `MM` in 00..59, parses under the bare
time-of-day layout to that hour and minute in year 0 and is converted to the
valid wrapper with that hour and minute in year 1. -/
theorem C17_time_of_day (h m : Nat) (hh : h < 24) (hm : m < 60) :
    NullTimeConverter (ascii "14:30") = ⟨⟨1, 1, 1, 14, 30, 0, 0⟩, true⟩
      ∧ time.Parse HTMLFormTime (ascii "14:30") = (⟨0, 1, 1, 14, 30, 0, 0⟩, none)
      ∧ time.Parse HTMLFormTime
          [Fin.ofNat (48 + h / 10), Fin.ofNat (48 + h % 10), 58,
            Fin.ofNat (48 + m / 10), Fin.ofNat (48 + m % 10)]
          = (⟨0, 1, 1, h, m, 0, 0⟩, none)
      ∧ NullTimeConverter
          [Fin.ofNat (48 + h / 10), Fin.ofNat (48 + h % 10), 58,
            Fin.ofNat (48 + m / 10), Fin.ofNat (48 + m % 10)]
          = ⟨⟨1, 1, 1, h, m, 0, 0⟩, true⟩ := by
  have hP := Parse_HTMLFormTime_hhmm h m hh hm
  refine ⟨by decide, by decide, hP, ?_⟩
  simp only [NullTimeConverter, hP, AddDate_clock_year0 h m hh hm]

/-- C17 at `23:59`. -/
theorem C17_time_of_day_witness :
    (23 < 24 ∧ 59 < 60)
      ∧ NullTimeConverter (ascii "23:59") = ⟨⟨1, 1, 1, 23, 59, 0, 0⟩, true⟩ :=
  ⟨by decide, (C17_time_of_day 23 59 (by decide) (by decide)).2.2.2⟩

/-! ## The bounds on rounds are never reached -/

theorem cutspace_length_le (s : Bytes) : (time.cutspace s).length ≤ s.length := by
  induction s with
  | nil => exact Nat.le_refl _
  | cons c r ih =>
    unfold time.cutspace
    split
    · exact Nat.le_succ_of_le ih
    · exact Nat.le_refl _

theorem skip_rounds_irrelevant (n : Nat) :
    ∀ (m : Nat) (value pre : Bytes), pre.length ≤ n → pre.length ≤ m →
      time.skip n value pre = time.skip m value pre := by
  induction n with
  | zero =>
    intro m value pre hn _
    have : pre = [] := List.length_eq_zero.mp (Nat.le_zero.mp hn)
    subst this
    rw [skip_nil, skip_nil]
  | succ n ih =>
    intro m value pre hn hm
    cases pre with
    | nil => rw [skip_nil, skip_nil]
    | cons p pre =>
      cases m with
      | zero => simp at hm
      | succ m =>
        have hn' : pre.length ≤ n := by simpa using hn
        have hm' : pre.length ≤ m := by simpa using hm
        by_cases hp : p = 32
        · have hc : time.cutspace (p :: pre) = time.cutspace pre := by
            simp [time.cutspace, hp]
          have hl := cutspace_length_le pre
          have hrec := ih m (time.cutspace value) (time.cutspace pre) (by omega) (by omega)
          rw [hp] at hc
          simp only [time.skip, hp, if_true, hc]
          cases value <;> simp only [hrec]
        · have hrec := fun vs => ih m vs pre hn' hm'
          simp only [time.skip, hp, if_false, hrec]

theorem stdAt_suffix_length (c : Byte) (rest : Bytes) (std : time.Std) (suffix : Bytes)
    (h : time.stdAt c rest = some (std, suffix)) : suffix.length ≤ rest.length := by
  unfold time.stdAt at h
  repeat' split at h
  all_goals (cases h <;> (try simp only [List.length_cons]) <;> omega)

theorem nextStdChunk_cons (c : Byte) (rest : Bytes) :
    time.nextStdChunk (c :: rest)
      = match time.stdAt c rest with
        | some (std, suffix) => ([], std, suffix)
        | none =>
          (c :: (time.nextStdChunk rest).1, (time.nextStdChunk rest).2.1,
            (time.nextStdChunk rest).2.2) := rfl

theorem nextStdChunk_suffix_length (layout : Bytes) :
    (time.nextStdChunk layout).2.1 ≠ .stdNone →
      (time.nextStdChunk layout).2.2.length < layout.length := by
  induction layout with
  | nil => intro h; exact absurd rfl h
  | cons c rest ih =>
    rw [nextStdChunk_cons]
    rcases hs : time.stdAt c rest with _ | ⟨std, suffix⟩
    · intro h
      have := ih h
      simp only [List.length_cons]
      omega
    · intro _
      have := stdAt_suffix_length c rest std suffix hs
      simp only [List.length_cons]
      omega

theorem parseStd_not_out_of_rounds (std : time.Std) (value : Bytes) (st : time.parseState) :
    time.parseStd std value st ≠ .error (time.parseError ": out of rounds") := by
  intro h
  unfold time.parseStd at h
  repeat' split at h
  all_goals cases h

/-- The loop of `parse`, given more rounds than the layout has bytes, never
stops for lack of rounds. -/
theorem parseLoop_rounds_suffice (rounds : Nat) :
    ∀ (layout value : Bytes) (st : time.parseState), layout.length < rounds →
      time.parseLoop rounds layout value st ≠ .error (time.parseError ": out of rounds") := by
  have hne : time.parseError "" ≠ time.parseError ": out of rounds"
      ∧ time.parseError ": extra text" ≠ time.parseError ": out of rounds" := by decide
  induction rounds with
  | zero => intro layout value st h; omega
  | succ rounds ih =>
    intro layout value st hlt
    unfold time.parseLoop
    have hsuf := nextStdChunk_suffix_length layout
    rcases hc : time.nextStdChunk layout with ⟨pre, std, suffix⟩
    rw [hc] at hsuf
    simp only
    rcases time.skip pre.length value pre with _ | v
    · exact fun h => hne.1 (Except.error.inj h)
    · simp only
      by_cases hstd : std = .stdNone
      · simp only [hstd, if_true]
        split
        · exact fun h => hne.2 (Except.error.inj h)
        · intro h; cases h
      · simp only [hstd, if_false]
        have hP := parseStd_not_out_of_rounds std v st
        rcases hp : time.parseStd std v st with e | ⟨st', v'⟩
        · rw [hp] at hP
          intro h
          exact hP (congrArg Except.error (Except.error.inj h))
        · exact fun h =>
            ih suffix v' st' (by have := hsuf hstd; simp only at this; omega) h

/-- With the rounds it gives them, `time.Parse` never fails for lack of
rounds: every error it returns is one of `parse`. -/
theorem Parse_rounds_suffice (layout value : Bytes) :
    (time.Parse layout value).2 ≠ some (time.parseError ": out of rounds") := by
  have hne : time.parseError ": day out of range" ≠ time.parseError ": out of rounds" := by
    decide
  have hL := parseLoop_rounds_suffice (layout.length + 1) layout value
    { year := 0, month := -1, day := -1, hour := 0, min := 0, amSet := false, pmSet := false }
    (Nat.lt_succ_self _)
  unfold time.Parse
  rcases hp : time.parseLoop (layout.length + 1) layout value
      { year := 0, month := -1, day := -1, hour := 0, min := 0, amSet := false,
        pmSet := false } with e | st
  · rw [hp] at hL
    intro h
    exact hL (congrArg Except.error (Option.some.inj h))
  · intro h
    simp only at h
    split_ifs at h <;> exact hne (Option.some.inj h)

end Nullables
